import Mathlib

/-!
# Verification of the `pmd_script_entry_list` codec

Shallow embedding of `src/script_entry_list.rs` (the whole repository core):
the decoder `ScriptEntryList::new_from_file` and the encoder
`ScriptEntryList::write_to_file` for the SIR0-contained script entry list
format, together with proofs of the spec's testable properties.

Modelling conventions:
* a stream is a `List Nat` of byte values; the encoder's seekable sink is a
  `WState` (byte list plus cursor position);
* machine integers are `Nat` with explicit `% 2 ^ 32` (resp. `% 256`) at the
  places the source casts (`as u32`, `to_le_bytes`);
* Rust `String` values are `List Char` (Lean `Char` is exactly a Unicode
  scalar value, as in Rust);
* fallible reads return `Except ScriptEntryListError`;
* the external `pmd_sir0::write_sir0_footer` (a separate crate, declared out
  of scope by the design document) is modelled from the spec as an opaque
  parameter `footer : List Nat → List Nat` mapping the pointer-offset list to
  the bytes the footer encoder appends at the current stream position.
-/

set_option maxRecDepth 8192

-- Decidable equality of `Except` results, used to evaluate concrete decoder
-- runs inside proofs.
deriving instance DecidableEq for Except

namespace PmdScriptEntryList

/-- The error enum `ScriptEntryListError` of the source.  The payloads of the
wrapped `io::Error`, `FromUtf8Error` and `FromUtf16Error` are not inspected by
any caller and are dropped; the `InvalidHeader` payload (the four observed
header bytes) is kept as in the source. -/
inductive ScriptEntryListError where
  | IOError
  | InvalidHeader (bytes : List Nat)
  | FromUtf8Error
  | FromUtf16Error
deriving DecidableEq, Repr

/-- `u32::from_le_bytes` on four byte values. -/
def fromLe32 (b0 b1 b2 b3 : Nat) : Nat :=
  b0 + 256 * b1 + 65536 * b2 + 16777216 * b3

/-- `read_u32` at absolute position `p`: `read_exact` of four bytes (an I/O
error on a short read) followed by `u32::from_le_bytes`. -/
def read_u32_at (data : List Nat) (p : Nat) : Except ScriptEntryListError Nat :=
  match (data.drop p).take 4 with
  | [b0, b1, b2, b3] => .ok (fromLe32 b0 b1 b2 b3)
  | _ => .error .IOError

/-- `entry_count` consecutive `read_u32` calls starting at position `p`
(the entry-pointer-table read loop, and the four-word flags read loop). -/
def readU32List (data : List Nat) (p : Nat) : Nat → Except ScriptEntryListError (List Nat)
  | 0 => .ok []
  | Nat.succ k => do
    let v ← read_u32_at data p
    let rest ← readU32List data (p + 4) k
    .ok (v :: rest)

/-- The byte-at-a-time loop of `read_referenced_utf8_string`, acting on the
suffix of the stream that starts at the referenced position.  Each single
byte is validated on its own by `String::from_utf8(vec![b])`, which succeeds
exactly for ASCII bytes (`b < 128`); reaching the end of the stream before a
zero byte is a failed `read_exact`. -/
def readUtf8Loop : List Nat → Except ScriptEntryListError (List Char)
  | [] => .error .IOError
  | b :: rest =>
    if b = 0 then .ok []
    else if b < 128 then do
      let cs ← readUtf8Loop rest
      .ok (Char.ofNat b :: cs)
    else .error .FromUtf8Error

/-- `read_referenced_utf8_string`: seek to `reference`, then read bytes until
a zero terminator. -/
def read_referenced_utf8_string (data : List Nat) (reference : Nat) :
    Except ScriptEntryListError (List Char) :=
  readUtf8Loop (data.drop reference)

/-- The unit-at-a-time loop of `read_referenced_utf16_string`: two bytes are
read into a little-endian `u16` code unit; a zero unit terminates; each unit
is validated on its own by `String::from_utf16(&[charid])`, which fails
exactly on surrogate code units (in the actual stream every unit is `< 2^16`,
so `Char.ofNat` is applied within its valid range). -/
def readUtf16Loop : List Nat → Except ScriptEntryListError (List Char)
  | [] => .error .IOError
  | [_] => .error .IOError
  | b0 :: b1 :: rest =>
    let charid := b0 + 256 * b1
    if charid = 0 then .ok []
    else if 55296 ≤ charid ∧ charid < 57344 then .error .FromUtf16Error
    else do
      let cs ← readUtf16Loop rest
      .ok (Char.ofNat charid :: cs)

/-- `read_referenced_utf16_string`: seek to `reference`, then read u16 code
units until a zero terminator. -/
def read_referenced_utf16_string (data : List Nat) (reference : Nat) :
    Except ScriptEntryListError (List Char) :=
  readUtf16Loop (data.drop reference)

/-- One script entry (`ScriptEntry`).  The Rust field `flags : [u32; 4]` is a
`List Nat`; the decoder only ever produces lists of four values `< 2 ^ 32`,
and encoder theorems carry those bounds as hypotheses. -/
structure ScriptEntry where
  entity_name : List Char
  map_name : List Char
  lua_path : List Char
  plb_path : List Char
  flags : List Nat
deriving DecidableEq, Repr, Inhabited

/-- `ScriptEntryList`: the ordered sequence of entries. -/
structure ScriptEntryList where
  entries : List ScriptEntry
deriving DecidableEq, Repr, Inhabited

/-- The body of the per-entry decode loop: five consecutive `u32` pointer
fields read at the entry record, then the four referenced values, in the
order of the source. -/
def readEntry (data : List Nat) (pointer_entry : Nat) :
    Except ScriptEntryListError ScriptEntry := do
  let actual_entity_name_pointer ← read_u32_at data pointer_entry
  let actual_map_name_pointer ← read_u32_at data (pointer_entry + 4)
  let actual_lua_path_pointer ← read_u32_at data (pointer_entry + 8)
  let actual_plb_path_pointer ← read_u32_at data (pointer_entry + 12)
  let actual_flags_pointer ← read_u32_at data (pointer_entry + 16)
  let entity_name ← read_referenced_utf8_string data actual_entity_name_pointer
  let map_name ← read_referenced_utf8_string data actual_map_name_pointer
  let lua_path ← read_referenced_utf16_string data actual_lua_path_pointer
  let plb_path ← read_referenced_utf16_string data actual_plb_path_pointer
  let flags ← readU32List data actual_flags_pointer 4
  .ok { entity_name, map_name, lua_path, plb_path, flags }

/-- The `for pointer_entry in all_pointer_entry` loop of `new_from_file`. -/
def readEntries (data : List Nat) : List Nat → Except ScriptEntryListError (List ScriptEntry)
  | [] => .ok []
  | p :: rest => do
    let e ← readEntry data p
    let es ← readEntries data rest
    .ok (e :: es)

/-- `ScriptEntryList::new_from_file` on a byte stream: header check, the fixed
chain of offset hops, the entry-pointer table, then every entry. -/
def new_from_file (data : List Nat) : Except ScriptEntryListError ScriptEntryList := do
  let header_buf ← (match data.take 4 with
    | [a, b, c, d] => Except.ok [a, b, c, d]
    | _ => Except.error ScriptEntryListError.IOError)
  if header_buf ≠ [83, 73, 82, 48] then
    throw (ScriptEntryListError.InvalidHeader header_buf)
  else do
    let pointer_content_data ← read_u32_at data 4
    let _pointer_pointer_offsets ← read_u32_at data 8
    let entry_count ← read_u32_at data pointer_content_data
    let pointer_entry_list ← read_u32_at data (pointer_content_data + 4)
    let all_pointer_entry ← readU32List data pointer_entry_list entry_count
    let entries ← readEntries data all_pointer_entry
    .ok { entries }

/-! ## The encoder's stream model -/

/-- The seekable, writable byte sink of `write_to_file`: the bytes written so
far plus the cursor position. -/
structure WState where
  data : List Nat
  pos : Nat
deriving DecidableEq, Repr

/-- A write of `bs` at position `p` over `data`: the bytes before `p` are
kept (zero-filled if the stream is shorter than `p`, which this encoder never
exercises), `bs` replaces the region `[p, p + bs.length)`, and the existing
bytes after that region are kept. -/
def writeAt (data : List Nat) (p : Nat) (bs : List Nat) : List Nat :=
  data.take p ++ List.replicate (p - data.length) 0 ++ bs ++ data.drop (p + bs.length)

/-- `file.write_all(bs)` on the cursor model. -/
def wwrite (s : WState) (bs : List Nat) : WState :=
  ⟨writeAt s.data s.pos bs, s.pos + bs.length⟩

/-- `u32::to_le_bytes(v as u32)` — only the low 32 bits of `v` reach the
four bytes, exactly as the `as u32` cast does. -/
def le32 (v : Nat) : List Nat :=
  [v % 256, v / 256 % 256, v / 65536 % 256, v / 16777216 % 256]

/-- `u16::to_le_bytes` of one UTF-16 code unit. -/
def le16 (u : Nat) : List Nat :=
  [u % 256, u / 256 % 256]

/-- `char::encode_utf16`: one code unit for a BMP scalar, a surrogate pair
for a supplementary-plane scalar. -/
def encodeUtf16Char (c : Char) : List Nat :=
  let v := c.toNat
  if v < 65536 then [v]
  else [55296 + (v - 65536) / 1024, 56320 + (v - 65536) % 1024]

/-- `string_to_utf16`: the little-endian bytes of every UTF-16 code unit of
the string. -/
def string_to_utf16 (s : List Char) : List Nat :=
  (((s.map encodeUtf16Char).flatten).map le16).flatten

/-- The UTF-8 bytes of one scalar value (what `String::as_bytes` stores for
one `char`). -/
def utf8EncodeChar (c : Char) : List Nat :=
  let v := c.toNat
  if v < 128 then [v]
  else if v < 2048 then [192 + v / 64, 128 + v % 64]
  else if v < 65536 then [224 + v / 4096, 128 + v / 64 % 64, 128 + v % 64]
  else [240 + v / 262144, 128 + v / 4096 % 64, 128 + v / 64 % 64, 128 + v % 64]

/-- `String::as_bytes` of a whole string. -/
def utf8Bytes (s : List Char) : List Nat :=
  (s.map utf8EncodeChar).flatten

/-- `HashSet::insert`: adds the value only if it is not already present.  The
Rust `HashSet` is later iterated in an unspecified order; this model keeps
insertion order, one admissible iteration order (the design document notes
the enumeration order of the distinct-string set is not semantically
constrained, and no verified property depends on it). -/
def insertNew (l : List (List Char)) (x : List Char) : List (List Char) :=
  if x ∈ l then l else l ++ [x]

/-- The distinct wide strings: `lua_path` then `plb_path` of every entry, in
the source's insertion order. -/
def collectUtf16Strings (entries : List ScriptEntry) : List (List Char) :=
  entries.foldl (fun acc e => insertNew (insertNew acc e.lua_path) e.plb_path) []

/-- The distinct narrow strings: `entity_name` then `map_name` of every
entry, in the source's insertion order. -/
def collectUtf8Strings (entries : List ScriptEntry) : List (List Char) :=
  entries.foldl (fun acc e => insertNew (insertNew acc e.entity_name) e.map_name) []

/-- The placeholder loop for the entry-pointer table: for each entry, push
the current position (`as u32`) onto `sir0_pointers` and write four zero
bytes. -/
def writeTablePlaceholders : Nat → WState → List Nat → WState × List Nat
  | 0, s, ptrs => (s, ptrs)
  | n + 1, s, ptrs =>
    writeTablePlaceholders n (wwrite s [0, 0, 0, 0]) (ptrs ++ [s.pos % 4294967296])

/-- The placeholder loop for the entry records: per entry, five
(push position, write four zero bytes) pairs, as in the source. -/
def writeEntryPlaceholders : Nat → WState → List Nat → WState × List Nat
  | 0, s, ptrs => (s, ptrs)
  | n + 1, s, ptrs =>
    let ptrs := ptrs ++ [s.pos % 4294967296]
    let s := wwrite s [0, 0, 0, 0]
    let ptrs := ptrs ++ [s.pos % 4294967296]
    let s := wwrite s [0, 0, 0, 0]
    let ptrs := ptrs ++ [s.pos % 4294967296]
    let s := wwrite s [0, 0, 0, 0]
    let ptrs := ptrs ++ [s.pos % 4294967296]
    let s := wwrite s [0, 0, 0, 0]
    let ptrs := ptrs ++ [s.pos % 4294967296]
    let s := wwrite s [0, 0, 0, 0]
    writeEntryPlaceholders n s ptrs

/-- The four little-endian flag words of one entry (the source indexes
`entry.flags[0] .. entry.flags[3]`; on the `[u32; 4]` type all four indices
exist, so `getD _ 0` is exact there). -/
def flagsBytes (flags : List Nat) : List Nat :=
  le32 (flags.getD 0 0) ++ le32 (flags.getD 1 0) ++ le32 (flags.getD 2 0) ++
    le32 (flags.getD 3 0)

/-- The flags write loop: per entry, push the block's start position onto
`flags_pointer` (no cast — the source keeps these as `u64`), then write the
four words.  No deduplication of flag blocks. -/
def writeFlags : List ScriptEntry → WState → List Nat → WState × List Nat
  | [], s, fps => (s, fps)
  | e :: rest, s, fps =>
    writeFlags rest (wwrite s (flagsBytes e.flags)) (fps ++ [s.pos])

/-- The wide-string pool write loop: each distinct string once, plus a
two-byte zero terminator, recording `string → start offset`. -/
def writeUtf16Strings : List (List Char) → WState → List (List Char × Nat) →
    WState × List (List Char × Nat)
  | [], s, m => (s, m)
  | str :: rest, s, m =>
    let string_start_offset := s.pos
    let s := wwrite s (string_to_utf16 str)
    let s := wwrite s [0, 0]
    writeUtf16Strings rest s (m ++ [(str, string_start_offset)])

/-- The narrow-string pool write loop: each distinct string once, plus a
one-byte zero terminator, recording `string → start offset`. -/
def writeUtf8Strings : List (List Char) → WState → List (List Char × Nat) →
    WState × List (List Char × Nat)
  | [], s, m => (s, m)
  | str :: rest, s, m =>
    let string_start_offset := s.pos
    let s := wwrite s (utf8Bytes str)
    let s := wwrite s [0]
    writeUtf8Strings rest s (m ++ [(str, string_start_offset)])

/-- `HashMap` indexing (`map[&key]`), total with default `0`; in the encoder
every looked-up key was previously inserted, so the default is never
returned. -/
def mapGet : List (List Char × Nat) → List Char → Nat
  | [], _ => 0
  | (k, v) :: rest, key => if key = k then v else mapGet rest key

/-- The entry-record back-patch loop: per entry (with its index `entryid`),
push the record position onto `entries_pointer` and write the five pointer
fields from the recorded string offsets and `flags_pointer`. -/
def writeEntryRecords (utf8_string_map utf16_string_map : List (List Char × Nat))
    (flags_pointer : List Nat) :
    List ScriptEntry → Nat → WState → List Nat → WState × List Nat
  | [], _, s, eps => (s, eps)
  | entry :: rest, entryid, s, eps =>
    let eps := eps ++ [s.pos]
    let s := wwrite s (le32 (mapGet utf8_string_map entry.entity_name))
    let s := wwrite s (le32 (mapGet utf8_string_map entry.map_name))
    let s := wwrite s (le32 (mapGet utf16_string_map entry.lua_path))
    let s := wwrite s (le32 (mapGet utf16_string_map entry.plb_path))
    let s := wwrite s (le32 (flags_pointer.getD entryid 0))
    writeEntryRecords utf8_string_map utf16_string_map flags_pointer rest (entryid + 1) s eps

/-- The entry-pointer-table back-patch loop: each recorded record position as
a little-endian `u32`. -/
def writeEntryPointerTable : List Nat → WState → WState
  | [], s => s
  | p :: rest, s => writeEntryPointerTable rest (wwrite s (le32 p))

/-- The padding loop `while pos % 4 != 0 write one zero byte`.  Every
iteration advances the position by one, so at most three iterations ever run;
the loop is given that iteration bound as structural fuel. -/
def padLoop : Nat → WState → WState
  | 0, s => s
  | n + 1, s => if s.pos % 4 = 0 then s else padLoop n (wwrite s [0])

/-- `ScriptEntryList::write_to_file`.  `footer` models the external
`pmd_sir0::write_sir0_footer` (out-of-scope crate; the spec treats it as an
opaque `emit_relocation_footer(stream, offsets)` that serializes the trailer
at the current stream position).  The Rust function returns `Ok(())`,
mutating `file`; this model returns the final stream state together with the
`sir0_pointers` list handed to the footer encoder, so that theorems can speak
about that list. -/
def write_to_file (l : ScriptEntryList) (footer : List Nat → List Nat)
    (file : WState) : WState × List Nat :=
  let sir0_pointers : List Nat := []
  let s := wwrite file [83, 73, 82, 48]
  -- pointer content data
  let sir0_pointers := sir0_pointers ++ [s.pos % 4294967296]
  let s := wwrite s (le32 16)
  -- pointer specific to sir0 (written as zero, back-patched at the end)
  let sir0_pointers := sir0_pointers ++ [s.pos % 4294967296]
  let s := wwrite s [0, 0, 0, 0]
  -- magic
  let s := wwrite s [0, 0, 0, 0]
  -- entry_count
  let s := wwrite s (le32 l.entries.length)
  -- pointer to list of pointer to entry
  let sir0_pointers := sir0_pointers ++ [s.pos % 4294967296]
  let s := wwrite s (le32 24)
  -- list of pointer to entry -- will be overwritten
  let r := writeTablePlaceholders l.entries.length s sir0_pointers
  let s := r.1
  let sir0_pointers := r.2
  -- list of entries -- will be overwritten
  let list_of_entries_pointer := s.pos
  let r := writeEntryPlaceholders l.entries.length s sir0_pointers
  let s := r.1
  let sir0_pointers := r.2
  -- list of flags (the original compiler does not eliminate duplicates)
  let r := writeFlags l.entries s []
  let s := r.1
  let flags_pointer := r.2
  -- the deduplicated string sets
  let utf16_string_to_write_set := collectUtf16Strings l.entries
  let utf8_string_to_write_set := collectUtf8Strings l.entries
  let r := writeUtf16Strings utf16_string_to_write_set s []
  let s := r.1
  let utf16_string_map := r.2
  let r := writeUtf8Strings utf8_string_to_write_set s []
  let s := r.1
  let utf8_string_map := r.2
  let sir0_list_pointer := s.pos
  -- write list of entries
  let s : WState := ⟨s.data, list_of_entries_pointer⟩
  let r :=
    writeEntryRecords utf8_string_map utf16_string_map flags_pointer l.entries 0 s []
  let s := r.1
  let entries_pointer := r.2
  -- write list of pointer to entries
  let s : WState := ⟨s.data, 24⟩
  let s := writeEntryPointerTable entries_pointer s
  -- write sir0 end: seek back to the content end, pad to a multiple of four
  let s : WState := ⟨s.data, sir0_list_pointer⟩
  let s := padLoop 3 s
  let sir0_list_padded := s.pos
  -- write the sir0 pointer list (external footer encoder)
  let s := wwrite s (footer sir0_pointers)
  -- back-patch the header field at offset 8 with the padded content end
  let s : WState := ⟨s.data, 8⟩
  let s := wwrite s (le32 sir0_list_padded)
  (s, sir0_pointers)

/-! ## The encoded layout

Closed forms for the positions and byte regions `write_to_file` produces,
proved equal to the encoder's output in the layout theorem below. -/

/-- Start of the entry-record block (`list_of_entries_pointer` in the
source): header (24 bytes) plus the entry-pointer table. -/
def recStart (l : ScriptEntryList) : Nat := 24 + 4 * l.entries.length

/-- Start of the flag blocks: the record block is `20` bytes per entry. -/
def flagsStart (l : ScriptEntryList) : Nat := recStart l + 20 * l.entries.length

/-- Start of the wide-string pool: the flag blocks are `16` bytes per entry. -/
def pool16Start (l : ScriptEntryList) : Nat := flagsStart l + 16 * l.entries.length

/-- The bytes of the wide-string pool: each distinct string, terminated. -/
def utf16PoolBytes (ws : List (List Char)) : List Nat :=
  (ws.map (fun s => string_to_utf16 s ++ [0, 0])).flatten

/-- The bytes of the narrow-string pool: each distinct string, terminated. -/
def utf8PoolBytes (ws : List (List Char)) : List Nat :=
  (ws.map (fun s => utf8Bytes s ++ [0])).flatten

/-- Start of the narrow-string pool. -/
def pool8Start (l : ScriptEntryList) : Nat :=
  pool16Start l + (utf16PoolBytes (collectUtf16Strings l.entries)).length

/-- End of the content (`sir0_list_pointer` in the source). -/
def contentEnd (l : ScriptEntryList) : Nat :=
  pool8Start l + (utf8PoolBytes (collectUtf8Strings l.entries)).length

/-- The 4-byte aligned end of content (`sir0_list_padded` in the source):
where the relocation footer begins. -/
def sir0ListPadded (l : ScriptEntryList) : Nat :=
  contentEnd l + (4 - contentEnd l % 4) % 4

/-- The string-to-offset map the wide-string write loop builds, as a function
of the pool base offset. -/
def utf16Offsets (base : Nat) : List (List Char) → List (List Char × Nat)
  | [] => []
  | s :: rest => (s, base) :: utf16Offsets (base + ((string_to_utf16 s).length + 2)) rest

/-- The string-to-offset map the narrow-string write loop builds. -/
def utf8Offsets (base : Nat) : List (List Char) → List (List Char × Nat)
  | [] => []
  | s :: rest => (s, base) :: utf8Offsets (base + ((utf8Bytes s).length + 1)) rest

/-- The `utf16_string_map` of an encode of `l`. -/
def utf16Map (l : ScriptEntryList) : List (List Char × Nat) :=
  utf16Offsets (pool16Start l) (collectUtf16Strings l.entries)

/-- The `utf8_string_map` of an encode of `l`. -/
def utf8Map (l : ScriptEntryList) : List (List Char × Nat) :=
  utf8Offsets (pool8Start l) (collectUtf8Strings l.entries)

/-- The `flags_pointer` list of an encode of `l`: one block per entry, in
entry order, 16 bytes apart. -/
def flagsPointerList (l : ScriptEntryList) : List Nat :=
  (List.range l.entries.length).map (fun i => flagsStart l + 16 * i)

/-- The five back-patched pointer fields of one entry record. -/
def entryRecordBytes (m8 m16 : List (List Char × Nat)) (fp : Nat) (e : ScriptEntry) :
    List Nat :=
  le32 (mapGet m8 e.entity_name) ++ le32 (mapGet m8 e.map_name) ++
    le32 (mapGet m16 e.lua_path) ++ le32 (mapGet m16 e.plb_path) ++ le32 fp

/-- The record block bytes for the entries starting at index `i`. -/
def recordsBytesAux (m8 m16 : List (List Char × Nat)) (fps : List Nat) :
    List ScriptEntry → Nat → List Nat
  | [], _ => []
  | e :: rest, i =>
    entryRecordBytes m8 m16 (fps.getD i 0) e ++ recordsBytesAux m8 m16 fps rest (i + 1)

/-- The full back-patched record block of an encode of `l`. -/
def recordsBytes (l : ScriptEntryList) : List Nat :=
  recordsBytesAux (utf8Map l) (utf16Map l) (flagsPointerList l) l.entries 0

/-- The `entries_pointer` list: one record per entry, 20 bytes apart. -/
def entriesPointerList (l : ScriptEntryList) : List Nat :=
  (List.range l.entries.length).map (fun i => recStart l + 20 * i)

/-- The back-patched entry-pointer table bytes. -/
def tableBytes (l : ScriptEntryList) : List Nat :=
  ((entriesPointerList l).map le32).flatten

/-- All flag blocks, in entry order. -/
def flagsAllBytes (l : ScriptEntryList) : List Nat :=
  (l.entries.map (fun e => flagsBytes e.flags)).flatten

/-- The recorded positions of the five pointer fields of every entry record
(`as u32`, as the source pushes them). -/
def recordFieldPtrs (l : ScriptEntryList) : List Nat :=
  ((List.range l.entries.length).map (fun j =>
    [(recStart l + 20 * j) % 4294967296, (recStart l + 20 * j + 4) % 4294967296,
      (recStart l + 20 * j + 8) % 4294967296, (recStart l + 20 * j + 12) % 4294967296,
      (recStart l + 20 * j + 16) % 4294967296])).flatten

/-- The `sir0_pointers` list passed to the external footer encoder: the
content-offset field (4), the reserved second header field (8), the
entry-table-pointer field (20), every entry-pointer-table slot, and the five
pointer fields of every entry record. -/
def sir0Pointers (l : ScriptEntryList) : List Nat :=
  [4, 8, 20] ++ (List.range l.entries.length).map (fun i => (24 + 4 * i) % 4294967296)
    ++ recordFieldPtrs l

/-- The final stream up to (excluding) the relocation footer. -/
def paddedContent (l : ScriptEntryList) : List Nat :=
  [83, 73, 82, 48] ++ le32 16 ++ le32 (sir0ListPadded l) ++ [0, 0, 0, 0] ++
    le32 l.entries.length ++ le32 24 ++ tableBytes l ++ recordsBytes l ++
    flagsAllBytes l ++ utf16PoolBytes (collectUtf16Strings l.entries) ++
    utf8PoolBytes (collectUtf8Strings l.entries) ++
    List.replicate ((4 - contentEnd l % 4) % 4) 0

/-- The final stream of a fresh-stream encode of `l`. -/
def encodedBytes (l : ScriptEntryList) (footer : List Nat → List Nat) : List Nat :=
  paddedContent l ++ footer (sir0Pointers l)

/-- The entries the codec round-trips exactly: the `[u32; 4]` shape of
`flags`, ASCII-only narrow strings, BMP-only wide strings, no NUL scalar
anywhere (empty strings allowed). -/
def goodEntry (e : ScriptEntry) : Prop :=
  e.flags.length = 4 ∧ (∀ f ∈ e.flags, f < 4294967296) ∧
    (∀ c ∈ e.entity_name, 0 < c.toNat ∧ c.toNat < 128) ∧
    (∀ c ∈ e.map_name, 0 < c.toNat ∧ c.toNat < 128) ∧
    (∀ c ∈ e.lua_path, 0 < c.toNat ∧ c.toNat < 65536) ∧
    (∀ c ∈ e.plb_path, 0 < c.toNat ∧ c.toNat < 65536)

instance (e : ScriptEntry) : Decidable (goodEntry e) := by
  unfold goodEntry
  infer_instance

/-! ## Concrete example inputs -/

/-- The empty list. -/
def exList0 : ScriptEntryList := ⟨[]⟩

/-- A good entry with nonempty strings. -/
def exEntryA : ScriptEntry :=
  ⟨[Char.ofNat 97], [Char.ofNat 98], [Char.ofNat 99], [Char.ofNat 100], [1, 2, 3, 4]⟩

/-- A second entry sharing `map_name`, `lua_path` and `flags` with `exEntryA`. -/
def exEntryB : ScriptEntry :=
  ⟨[Char.ofNat 101], [Char.ofNat 98], [Char.ofNat 99], [Char.ofNat 102], [1, 2, 3, 4]⟩

/-- An entry whose strings are all empty. -/
def exEntryEmpty : ScriptEntry := ⟨[], [], [], [], [0, 0, 0, 0]⟩

/-- An entry whose `entity_name` is the single non-ASCII scalar U+00E9. -/
def exEntryAcute : ScriptEntry :=
  ⟨[Char.ofNat 233], [Char.ofNat 97], [Char.ofNat 97], [Char.ofNat 97], [0, 0, 0, 0]⟩

/-- A one-entry list of good, nonempty strings. -/
def exList1 : ScriptEntryList := ⟨[exEntryA]⟩

/-- A two-entry list with shared strings and identical flags. -/
def exList2 : ScriptEntryList := ⟨[exEntryA, exEntryB]⟩

/-- A one-entry list whose strings are all empty. -/
def exListEmpty : ScriptEntryList := ⟨[exEntryEmpty]⟩

/-- A one-entry list whose `entity_name` holds a non-ASCII scalar. -/
def exListAcute : ScriptEntryList := ⟨[exEntryAcute]⟩

/-! ## Basic length and write lemmas -/

theorem le32_length (v : Nat) : (le32 v).length = 4 := rfl

theorem flagsBytes_length (fl : List Nat) : (flagsBytes fl).length = 16 := rfl

theorem entryRecordBytes_length (m8 m16 : List (List Char × Nat)) (fp : Nat)
    (e : ScriptEntry) : (entryRecordBytes m8 m16 fp e).length = 20 := rfl

/-- A write at the current end of the stream appends. -/
theorem wwrite_append (s : WState) (bs : List Nat) (h : s.pos = s.data.length) :
    wwrite s bs = ⟨s.data ++ bs, s.pos + bs.length⟩ := by
  simp only [wwrite, writeAt, h, WState.mk.injEq]
  rw [List.take_length, Nat.sub_self, List.replicate_zero,
    List.drop_eq_nil_of_le (by omega)]
  simp

/-- A write that replaces a region of equal length in the middle of the
stream. -/
theorem writeAt_middle (pre mid suf bs : List Nat) (h : mid.length = bs.length) :
    writeAt (pre ++ (mid ++ suf)) pre.length bs = pre ++ (bs ++ suf) := by
  unfold writeAt
  rw [List.take_left, ← h, List.drop_append mid.length, List.drop_left]
  have hle : pre.length ≤ (pre ++ (mid ++ suf)).length := by simp
  rw [Nat.sub_eq_zero_of_le hle, List.replicate_zero]
  simp

/-- Splitting the first element off a `range`-map. -/
theorem range_succ_map {α : Type} (g : Nat → α) (k : Nat) :
    (List.range (k + 1)).map g = g 0 :: (List.range k).map (fun i => g (i + 1)) := by
  rw [List.range_succ_eq_map, List.map_cons, List.map_map]
  exact congrArg (g 0 :: ·) (List.map_eq_map_iff.mpr fun a _ => by
    simp [Function.comp, Nat.succ_eq_add_one])

/-- A write at the current end of the stream, in the normal form the phase
lemmas thread through their inductions. -/
theorem wwrite_mk (d bs : List Nat) :
    wwrite ⟨d, d.length⟩ bs = ⟨d ++ bs, (d ++ bs).length⟩ := by
  simp only [wwrite, writeAt, List.take_length, Nat.sub_self, List.replicate_zero,
    List.length_append]
  rw [List.drop_eq_nil_of_le (by omega)]
  simp

/-- Closed form of the entry-pointer-table placeholder loop: `4 n` zero bytes
appended at the end of the stream, the slot positions pushed. -/
theorem writeTablePlaceholders_eq (n : Nat) (s : WState) (ptrs : List Nat)
    (h : s.pos = s.data.length) :
    writeTablePlaceholders n s ptrs =
      (⟨s.data ++ List.replicate (4 * n) 0, s.pos + 4 * n⟩,
        ptrs ++ (List.range n).map (fun i => (s.pos + 4 * i) % 4294967296)) := by
  induction n generalizing s ptrs with
  | zero => simp [writeTablePlaceholders]
  | succ k ih =>
    obtain ⟨d, p⟩ := s
    change p = d.length at h
    subst h
    rw [writeTablePlaceholders, wwrite_mk, ih _ _ rfl,
      range_succ_map (fun i => (d.length + 4 * i) % 4294967296) k]
    refine Prod.ext ?_ ?_
    · show (⟨_, _⟩ : WState) = ⟨_, _⟩
      rw [WState.mk.injEq]
      refine ⟨?_, by simp; omega⟩
      rw [List.append_assoc]
      refine congrArg (d ++ ·) ?_
      rw [show 4 * (k + 1) = 4 + 4 * k by omega, List.replicate_add]
      rfl
    · show _ ++ _ = _ ++ _
      simp only [List.append_assoc, List.singleton_append, List.length_append,
        List.length_cons, List.length_nil]
      refine congrArg (ptrs ++ ·) ?_
      rw [List.cons.injEq]
      exact ⟨by omega, List.map_eq_map_iff.mpr fun a _ => by omega⟩

/-- Closed form of the entry-record placeholder loop: `20 n` zero bytes
appended, the five field positions per record pushed. -/
theorem writeEntryPlaceholders_eq (n : Nat) (s : WState) (ptrs : List Nat)
    (h : s.pos = s.data.length) :
    writeEntryPlaceholders n s ptrs =
      (⟨s.data ++ List.replicate (20 * n) 0, s.pos + 20 * n⟩,
        ptrs ++ ((List.range n).map (fun j =>
          [(s.pos + 20 * j) % 4294967296, (s.pos + 20 * j + 4) % 4294967296,
            (s.pos + 20 * j + 8) % 4294967296, (s.pos + 20 * j + 12) % 4294967296,
            (s.pos + 20 * j + 16) % 4294967296])).flatten) := by
  induction n generalizing s ptrs with
  | zero => simp [writeEntryPlaceholders]
  | succ k ih =>
    obtain ⟨d, p⟩ := s
    change p = d.length at h
    subst h
    simp only [writeEntryPlaceholders]
    rw [wwrite_mk, wwrite_mk, wwrite_mk, wwrite_mk, wwrite_mk, ih _ _ rfl,
      range_succ_map (fun j =>
        [(d.length + 20 * j) % 4294967296, (d.length + 20 * j + 4) % 4294967296,
          (d.length + 20 * j + 8) % 4294967296, (d.length + 20 * j + 12) % 4294967296,
          (d.length + 20 * j + 16) % 4294967296]) k]
    refine Prod.ext ?_ ?_
    · show (⟨_, _⟩ : WState) = ⟨_, _⟩
      rw [WState.mk.injEq]
      refine ⟨?_, by simp; omega⟩
      simp only [List.append_assoc]
      refine congrArg (d ++ ·) ?_
      rw [show 20 * (k + 1) = 4 + (4 + (4 + (4 + (4 + 20 * k)))) by omega,
        List.replicate_add, List.replicate_add, List.replicate_add,
        List.replicate_add, List.replicate_add]
      rfl
    · show _ ++ _ = _ ++ _
      simp only [List.append_assoc, List.singleton_append, List.flatten_cons,
        List.cons_append, List.nil_append, List.length_append, List.length_cons,
        List.length_nil]
      refine congrArg (ptrs ++ ·) ?_
      rw [List.cons.injEq]
      refine ⟨by omega, ?_⟩
      rw [List.cons.injEq]
      refine ⟨by omega, ?_⟩
      rw [List.cons.injEq]
      refine ⟨by omega, ?_⟩
      rw [List.cons.injEq]
      refine ⟨by omega, ?_⟩
      rw [List.cons.injEq]
      refine ⟨by omega, ?_⟩
      refine congrArg List.flatten ?_
      exact List.map_eq_map_iff.mpr fun a _ => by
        simp only [List.cons.injEq, and_true]
        omega

/-- Closed form of the flags write loop: one 16-byte block per entry, in
entry order, block start positions pushed. -/
theorem writeFlags_eq (es : List ScriptEntry) (s : WState) (fps : List Nat)
    (h : s.pos = s.data.length) :
    writeFlags es s fps =
      (⟨s.data ++ (es.map (fun e => flagsBytes e.flags)).flatten,
          s.pos + 16 * es.length⟩,
        fps ++ (List.range es.length).map (fun i => s.pos + 16 * i)) := by
  induction es generalizing s fps with
  | nil => simp [writeFlags]
  | cons e rest ih =>
    obtain ⟨d, p⟩ := s
    change p = d.length at h
    subst h
    rw [writeFlags, wwrite_mk, ih _ _ rfl]
    simp only [List.length_cons]
    rw [range_succ_map (fun i => d.length + 16 * i) rest.length]
    refine Prod.ext ?_ ?_
    · show (⟨_, _⟩ : WState) = ⟨_, _⟩
      rw [WState.mk.injEq]
      constructor
      · simp [List.append_assoc]
      · simp only [List.length_append, flagsBytes_length]
        omega
    · show _ ++ _ = _ ++ _
      simp only [List.append_assoc, List.singleton_append, List.length_append,
        flagsBytes_length]
      refine congrArg (fps ++ ·) ?_
      rw [List.cons.injEq]
      exact ⟨by omega, List.map_eq_map_iff.mpr fun a _ => by omega⟩

/-- Closed form of the wide-string pool write loop: each string's bytes plus
a two-byte terminator, the offset map extended in write order. -/
theorem writeUtf16Strings_eq (ws : List (List Char)) (s : WState)
    (m : List (List Char × Nat)) (h : s.pos = s.data.length) :
    writeUtf16Strings ws s m =
      (⟨s.data ++ utf16PoolBytes ws, s.pos + (utf16PoolBytes ws).length⟩,
        m ++ utf16Offsets s.pos ws) := by
  induction ws generalizing s m with
  | nil => simp [writeUtf16Strings, utf16PoolBytes, utf16Offsets]
  | cons str rest ih =>
    obtain ⟨d, p⟩ := s
    change p = d.length at h
    subst h
    simp only [writeUtf16Strings]
    rw [wwrite_mk, wwrite_mk, ih _ _ rfl]
    refine Prod.ext ?_ ?_
    · show (⟨_, _⟩ : WState) = ⟨_, _⟩
      rw [WState.mk.injEq]
      constructor
      · simp [utf16PoolBytes, List.append_assoc]
      · simp only [utf16PoolBytes, List.map_cons, List.flatten_cons,
          List.length_append, List.length_cons, List.length_nil]
        omega
    · show _ ++ _ = _ ++ _
      simp only [utf16Offsets, List.append_assoc, List.singleton_append,
        List.length_append, List.length_cons, List.length_nil]

/-- Closed form of the narrow-string pool write loop. -/
theorem writeUtf8Strings_eq (ws : List (List Char)) (s : WState)
    (m : List (List Char × Nat)) (h : s.pos = s.data.length) :
    writeUtf8Strings ws s m =
      (⟨s.data ++ utf8PoolBytes ws, s.pos + (utf8PoolBytes ws).length⟩,
        m ++ utf8Offsets s.pos ws) := by
  induction ws generalizing s m with
  | nil => simp [writeUtf8Strings, utf8PoolBytes, utf8Offsets]
  | cons str rest ih =>
    obtain ⟨d, p⟩ := s
    change p = d.length at h
    subst h
    simp only [writeUtf8Strings]
    rw [wwrite_mk, wwrite_mk, ih _ _ rfl]
    refine Prod.ext ?_ ?_
    · show (⟨_, _⟩ : WState) = ⟨_, _⟩
      rw [WState.mk.injEq]
      constructor
      · simp [utf8PoolBytes, List.append_assoc]
      · simp only [utf8PoolBytes, List.map_cons, List.flatten_cons,
          List.length_append, List.length_cons, List.length_nil]
        omega
    · show _ ++ _ = _ ++ _
      simp only [utf8Offsets, List.append_assoc, List.singleton_append,
        List.length_append, List.length_cons, List.length_nil]

/-- One little-endian `u32` overwrite at the front of a zero placeholder
region of length `r`. -/
theorem wwrite_patch4 (pre rest : List Nat) (v r : Nat) (h4 : 4 ≤ r) (s : WState)
    (hd : s.data = pre ++ (List.replicate r 0 ++ rest)) (hp : s.pos = pre.length) :
    wwrite s (le32 v) =
      ⟨pre ++ (le32 v ++ (List.replicate (r - 4) 0 ++ rest)), pre.length + 4⟩ := by
  obtain ⟨d, p⟩ := s
  change d = _ at hd
  change p = _ at hp
  subst hd hp
  have hr : List.replicate r (0 : Nat) =
      List.replicate 4 0 ++ List.replicate (r - 4) 0 := by
    rw [← List.replicate_add]
    exact congrArg (List.replicate · 0) (by omega)
  simp only [wwrite, hr, List.append_assoc]
  rw [writeAt_middle pre (List.replicate 4 0) _ (le32 v) (by simp [le32_length])]
  simp [le32_length]

/-- Closed form of the entry-record back-patch loop: the placeholder zeros
are replaced by the five pointer fields per record; the record start
positions are pushed onto `entries_pointer`. -/
theorem writeEntryRecords_eq (m8 m16 : List (List Char × Nat)) (fps : List Nat)
    (es : List ScriptEntry) : ∀ (i : Nat) (s : WState) (eps pre suf : List Nat),
    s.data = pre ++ (List.replicate (20 * es.length) 0 ++ suf) →
    s.pos = pre.length →
    writeEntryRecords m8 m16 fps es i s eps =
      (⟨pre ++ (recordsBytesAux m8 m16 fps es i ++ suf), pre.length + 20 * es.length⟩,
        eps ++ (List.range es.length).map (fun j => pre.length + 20 * j)) := by
  induction es with
  | nil =>
    intro i s eps pre suf hd hp
    obtain ⟨d, p⟩ := s
    change d = _ at hd
    change p = _ at hp
    subst hd hp
    simp [writeEntryRecords, recordsBytesAux]
  | cons e rest ih =>
    intro i s eps pre suf hd hp
    obtain ⟨d, p⟩ := s
    change d = _ at hd
    change p = _ at hp
    subst hd hp
    simp only [List.length_cons]
    simp only [writeEntryRecords]
    rw [wwrite_patch4 pre suf (mapGet m8 e.entity_name) (20 * (rest.length + 1))
      (by omega) ⟨pre ++ (List.replicate (20 * (rest.length + 1)) 0 ++ suf), pre.length⟩
      rfl rfl]
    rw [wwrite_patch4 (pre ++ le32 (mapGet m8 e.entity_name)) suf (mapGet m8 e.map_name)
      (20 * (rest.length + 1) - 4) (by omega)
      ⟨pre ++ (le32 (mapGet m8 e.entity_name) ++
        (List.replicate (20 * (rest.length + 1) - 4) 0 ++ suf)), pre.length + 4⟩
      (by simp [List.append_assoc]) (by simp [le32_length])]
    rw [wwrite_patch4 (pre ++ le32 (mapGet m8 e.entity_name) ++ le32 (mapGet m8 e.map_name))
      suf (mapGet m16 e.lua_path) (20 * (rest.length + 1) - 4 - 4) (by omega)
      ⟨pre ++ le32 (mapGet m8 e.entity_name) ++ (le32 (mapGet m8 e.map_name) ++
        (List.replicate (20 * (rest.length + 1) - 4 - 4) 0 ++ suf)),
        (pre ++ le32 (mapGet m8 e.entity_name)).length + 4⟩
      (by simp [List.append_assoc]) (by simp [le32_length])]
    rw [wwrite_patch4 (pre ++ le32 (mapGet m8 e.entity_name) ++ le32 (mapGet m8 e.map_name)
        ++ le32 (mapGet m16 e.lua_path)) suf (mapGet m16 e.plb_path)
      (20 * (rest.length + 1) - 4 - 4 - 4) (by omega)
      ⟨pre ++ le32 (mapGet m8 e.entity_name) ++ le32 (mapGet m8 e.map_name) ++
        (le32 (mapGet m16 e.lua_path) ++
          (List.replicate (20 * (rest.length + 1) - 4 - 4 - 4) 0 ++ suf)),
        (pre ++ le32 (mapGet m8 e.entity_name) ++ le32 (mapGet m8 e.map_name)).length + 4⟩
      (by simp [List.append_assoc]) (by simp [le32_length])]
    rw [wwrite_patch4 (pre ++ le32 (mapGet m8 e.entity_name) ++ le32 (mapGet m8 e.map_name)
        ++ le32 (mapGet m16 e.lua_path) ++ le32 (mapGet m16 e.plb_path)) suf
      (fps.getD i 0) (20 * (rest.length + 1) - 4 - 4 - 4 - 4) (by omega)
      ⟨pre ++ le32 (mapGet m8 e.entity_name) ++ le32 (mapGet m8 e.map_name) ++
        le32 (mapGet m16 e.lua_path) ++ (le32 (mapGet m16 e.plb_path) ++
          (List.replicate (20 * (rest.length + 1) - 4 - 4 - 4 - 4) 0 ++ suf)),
        (pre ++ le32 (mapGet m8 e.entity_name) ++ le32 (mapGet m8 e.map_name) ++
          le32 (mapGet m16 e.lua_path)).length + 4⟩
      (by simp [List.append_assoc]) (by simp [le32_length])]
    rw [ih (i + 1)
      ⟨pre ++ le32 (mapGet m8 e.entity_name) ++ le32 (mapGet m8 e.map_name) ++
        le32 (mapGet m16 e.lua_path) ++ le32 (mapGet m16 e.plb_path) ++
        (le32 (fps.getD i 0) ++
          (List.replicate (20 * (rest.length + 1) - 4 - 4 - 4 - 4 - 4) 0 ++ suf)),
        (pre ++ le32 (mapGet m8 e.entity_name) ++ le32 (mapGet m8 e.map_name) ++
          le32 (mapGet m16 e.lua_path) ++ le32 (mapGet m16 e.plb_path)).length + 4⟩
      (eps ++ [pre.length])
      (pre ++ le32 (mapGet m8 e.entity_name) ++ le32 (mapGet m8 e.map_name)
        ++ le32 (mapGet m16 e.lua_path) ++ le32 (mapGet m16 e.plb_path)
        ++ le32 (fps.getD i 0)) suf
      (by rw [show (20 * (rest.length + 1) - 4 - 4 - 4 - 4 - 4 : Nat) = 20 * rest.length
          from by omega]
          simp [List.append_assoc])
      (by simp [le32_length])]
    rw [range_succ_map (fun j => pre.length + 20 * j) rest.length]
    refine Prod.ext ?_ ?_
    · show (⟨_, _⟩ : WState) = ⟨_, _⟩
      rw [WState.mk.injEq]
      constructor
      · simp only [recordsBytesAux, entryRecordBytes, List.append_assoc]
      · simp only [List.length_append, le32_length]
        omega
    · show _ ++ _ = _ ++ _
      simp only [List.append_assoc, List.singleton_append, List.length_append, le32_length]
      refine congrArg (eps ++ ·) ?_
      rw [List.cons.injEq]
      exact ⟨by omega, List.map_eq_map_iff.mpr fun a _ => by omega⟩

/-- Closed form of the entry-pointer-table back-patch loop. -/
theorem writeEntryPointerTable_eq (ps : List Nat) : ∀ (s : WState) (pre suf : List Nat),
    s.data = pre ++ (List.replicate (4 * ps.length) 0 ++ suf) →
    s.pos = pre.length →
    writeEntryPointerTable ps s =
      ⟨pre ++ ((ps.map le32).flatten ++ suf), pre.length + 4 * ps.length⟩ := by
  induction ps with
  | nil =>
    intro s pre suf hd hp
    obtain ⟨d, p⟩ := s
    change d = _ at hd
    change p = _ at hp
    subst hd hp
    simp [writeEntryPointerTable]
  | cons v rest ih =>
    intro s pre suf hd hp
    obtain ⟨d, p⟩ := s
    change d = _ at hd
    change p = _ at hp
    subst hd hp
    simp only [List.length_cons]
    rw [writeEntryPointerTable]
    rw [wwrite_patch4 pre suf v (4 * (rest.length + 1)) (by omega) _ rfl rfl]
    rw [ih _ (pre ++ le32 v) suf
      (by rw [show (4 * (rest.length + 1) - 4 : Nat) = 4 * rest.length from by omega]
          simp [List.append_assoc])
      (by simp [le32])]
    rw [WState.mk.injEq]
    constructor
    · simp only [List.map_cons, List.flatten_cons, List.append_assoc]
    · simp only [List.length_append, le32_length]
      omega

/-- The padding loop, given enough fuel, pads to the next multiple of four. -/
theorem padLoop_mk (k : Nat) : ∀ (d : List Nat), (4 - d.length % 4) % 4 ≤ k →
    padLoop k ⟨d, d.length⟩ =
      ⟨d ++ List.replicate ((4 - d.length % 4) % 4) 0,
        d.length + (4 - d.length % 4) % 4⟩ := by
  induction k with
  | zero =>
    intro d hk
    have h0 : (4 - d.length % 4) % 4 = 0 := by omega
    simp [padLoop, h0]
  | succ k ih =>
    intro d hk
    rw [padLoop]
    by_cases h0 : d.length % 4 = 0
    · have hz : (4 - d.length % 4) % 4 = 0 := by omega
      simp [h0, hz]
    · rw [if_neg h0, wwrite_mk]
      rw [ih (d ++ [0]) (by simp; omega)]
      have hm : (4 - (d ++ [0]).length % 4) % 4 = (4 - d.length % 4) % 4 - 1 := by
        simp
        omega
      rw [WState.mk.injEq, hm]
      have hge : 1 ≤ (4 - d.length % 4) % 4 := by omega
      obtain ⟨m, hmm⟩ : ∃ m, (4 - d.length % 4) % 4 = m + 1 :=
        ⟨(4 - d.length % 4) % 4 - 1, by omega⟩
      rw [hmm]
      constructor
      · simp [List.replicate_succ]
      · simp
        omega

/-- The padding loop at the end of the stream, hypothesis form. -/
theorem padLoop_eq (k : Nat) (s : WState) (h : s.pos = s.data.length)
    (hk : (4 - s.data.length % 4) % 4 ≤ k) :
    padLoop k s =
      ⟨s.data ++ List.replicate ((4 - s.data.length % 4) % 4) 0,
        s.data.length + (4 - s.data.length % 4) % 4⟩ := by
  obtain ⟨d, p⟩ := s
  change p = d.length at h
  subst h
  exact padLoop_mk k d hk

/-- The final back-patch: the write of the padded content end over the
four zero bytes at offset 8 of the header. -/
theorem wwrite_patchAt8 (v : Nat) (rest : List Nat) :
    wwrite ⟨[83, 73, 82, 48] ++ (le32 16 ++ ([0, 0, 0, 0] ++ rest)), 8⟩ (le32 v) =
      ⟨[83, 73, 82, 48] ++ (le32 16 ++ (le32 v ++ rest)), 12⟩ := by
  show (⟨writeAt _ 8 _, 8 + (le32 v).length⟩ : WState) = _
  rw [show [83, 73, 82, 48] ++ (le32 16 ++ ([0, 0, 0, 0] ++ rest)) =
    ([83, 73, 82, 48] ++ le32 16) ++ ([0, 0, 0, 0] ++ rest) from by
      simp [List.append_assoc]]
  rw [show (8 : Nat) = ([83, 73, 82, 48] ++ le32 16).length from by simp [le32_length]]
  rw [writeAt_middle ([83, 73, 82, 48] ++ le32 16) [0, 0, 0, 0] rest (le32 v)
    (by simp [le32_length])]
  simp [le32_length, List.append_assoc]

theorem flatten_map_le32_length (vs : List Nat) :
    ((vs.map le32).flatten).length = 4 * vs.length := by
  induction vs with
  | nil => simp
  | cons v rest ih => simp [ih, le32_length]; omega

theorem recordsBytesAux_length (m8 m16 : List (List Char × Nat)) (fps : List Nat) :
    ∀ (es : List ScriptEntry) (i : Nat),
    (recordsBytesAux m8 m16 fps es i).length = 20 * es.length := by
  intro es
  induction es with
  | nil => intro i; simp [recordsBytesAux]
  | cons e rest ih =>
    intro i
    simp [recordsBytesAux, entryRecordBytes_length, ih]
    omega

theorem flagsAllFlatten_length (es : List ScriptEntry) :
    ((es.map (fun e => flagsBytes e.flags)).flatten).length = 16 * es.length := by
  induction es with
  | nil => simp
  | cons e rest ih => simp [ih, flagsBytes_length]; omega

set_option maxHeartbeats 2000000 in
/-- The layout theorem: a fresh-stream encode of `l` produces exactly the
closed layout `encodedBytes l footer`, hands exactly `sir0Pointers l` to the
footer encoder, and leaves the cursor after the offset-8 back-patch. -/
theorem write_to_file_eq (l : ScriptEntryList) (footer : List Nat → List Nat) :
    write_to_file l footer ⟨[], 0⟩ = (⟨encodedBytes l footer, 12⟩, sir0Pointers l) := by
  simp only [write_to_file]
  rw [show (⟨[], 0⟩ : WState) = ⟨[], List.length ([] : List Nat)⟩ from rfl]
  rw [wwrite_mk, wwrite_mk, wwrite_mk, wwrite_mk, wwrite_mk, wwrite_mk]
  rw [writeTablePlaceholders_eq _ _ _ rfl]
  simp only [List.nil_append, List.append_assoc, List.length_append, List.length_cons,
    List.length_nil, le32_length, List.length_replicate, List.singleton_append,
    Nat.reduceAdd]
  rw [writeEntryPlaceholders_eq _ _ _ (by
    simp only [List.length_append, List.length_cons, List.length_nil, le32_length,
      List.length_replicate]
    omega)]
  rw [writeFlags_eq _ _ _ (by
    simp only [List.length_append, List.length_cons, List.length_nil, le32_length,
      List.length_replicate]
    omega)]
  rw [writeUtf16Strings_eq _ _ _ (by
    simp only [List.length_append, List.length_cons, List.length_nil, le32_length,
      List.length_replicate, flagsAllFlatten_length]
    omega)]
  rw [writeUtf8Strings_eq _ _ _ (by
    simp only [List.length_append, List.length_cons, List.length_nil, le32_length,
      List.length_replicate, flagsAllFlatten_length]
    omega)]
  simp only [List.nil_append, List.append_assoc]
  rw [writeEntryRecords_eq _ _ _ l.entries 0 _ _
    ([83, 73, 82, 48] ++ (le32 16 ++ ([0, 0, 0, 0] ++ ([0, 0, 0, 0] ++
      (le32 l.entries.length ++ (le32 24 ++ List.replicate (4 * l.entries.length) 0))))))
    ((l.entries.map (fun e => flagsBytes e.flags)).flatten ++
      (utf16PoolBytes (collectUtf16Strings l.entries) ++
        utf8PoolBytes (collectUtf8Strings l.entries)))
    (by simp only [List.append_assoc])
    (by simp only [List.length_append, List.length_cons, List.length_nil, le32_length,
          List.length_replicate]
        omega)]
  rw [writeEntryPointerTable_eq _ _
    ([83, 73, 82, 48] ++ (le32 16 ++ ([0, 0, 0, 0] ++ ([0, 0, 0, 0] ++
      (le32 l.entries.length ++ le32 24)))))
    (recordsBytesAux
      (utf8Offsets
        (24 + 4 * l.entries.length + 20 * l.entries.length + 16 * l.entries.length +
          (utf16PoolBytes (collectUtf16Strings l.entries)).length)
        (collectUtf8Strings l.entries))
      (utf16Offsets (24 + 4 * l.entries.length + 20 * l.entries.length + 16 * l.entries.length)
        (collectUtf16Strings l.entries))
      (List.map (fun i => 24 + 4 * l.entries.length + 20 * l.entries.length + 16 * i)
        (List.range l.entries.length))
      l.entries 0 ++
      ((l.entries.map (fun e => flagsBytes e.flags)).flatten ++
        (utf16PoolBytes (collectUtf16Strings l.entries) ++
          utf8PoolBytes (collectUtf8Strings l.entries))))
    (by simp only [List.append_assoc, List.nil_append, List.length_map, List.length_range,
          List.length_append, List.length_cons, List.length_nil, le32_length,
          List.length_replicate])
    (by simp only [List.length_append, List.length_cons, List.length_nil, le32_length])]
  simp only [List.nil_append, List.append_assoc, List.length_append, List.length_cons,
    List.length_nil, le32_length, List.length_replicate, List.length_map, List.length_range,
    Nat.reduceAdd]
  rw [padLoop_eq 3 _ (by
    simp only [List.length_append, List.length_cons, List.length_nil, le32_length,
      List.length_replicate, List.length_map, List.length_range, flagsAllFlatten_length,
      flatten_map_le32_length, recordsBytesAux_length]
    omega) (by omega)]
  simp only [List.nil_append, List.append_assoc, List.length_append, List.length_cons,
    List.length_nil, le32_length, List.length_replicate, List.length_map, List.length_range,
    flagsAllFlatten_length, flatten_map_le32_length, recordsBytesAux_length, Nat.reduceAdd]
  rw [wwrite_append _ (footer _) (by
    simp only [List.length_append, List.length_cons, List.length_nil, le32_length,
      List.length_replicate, List.length_map, List.length_range, flagsAllFlatten_length,
      flatten_map_le32_length, recordsBytesAux_length]
    omega)]
  simp only [List.nil_append, List.append_assoc]
  rw [wwrite_patchAt8]
  simp only [Prod.mk.injEq, WState.mk.injEq]
  refine ⟨⟨?_, trivial⟩, ?_⟩
  · simp only [encodedBytes, paddedContent, tableBytes, entriesPointerList, recordsBytes,
      utf8Map, utf16Map, flagsPointerList, flagsAllBytes, sir0ListPadded, contentEnd,
      pool8Start, pool16Start, flagsStart, recStart, sir0Pointers, recordFieldPtrs,
      List.append_assoc, List.cons_append, List.singleton_append, List.nil_append,
      Nat.reduceMod]
    have hsum : (4 + (4 + (4 + (4 + (4 + (4 + (4 * l.entries.length +
        (20 * l.entries.length + (16 * l.entries.length +
          ((utf16PoolBytes (collectUtf16Strings l.entries)).length +
            (utf8PoolBytes (collectUtf8Strings l.entries)).length))))))))) : Nat) =
        24 + 4 * l.entries.length + 20 * l.entries.length + 16 * l.entries.length +
          (utf16PoolBytes (collectUtf16Strings l.entries)).length +
          (utf8PoolBytes (collectUtf8Strings l.entries)).length := by omega
    have htbl : (fun j => 4 + (4 + (4 + (4 + (4 + (4 + 4 * l.entries.length))))) + 20 * j) =
        (fun i => 24 + 4 * l.entries.length + 20 * i) := funext fun j => by omega
    rw [hsum, htbl]
  · simp only [sir0Pointers, recordFieldPtrs, recStart, List.cons_append,
      List.singleton_append, List.append_assoc, Nat.reduceMod, List.nil_append]

/-! ## Decoding the encoded layout -/

theorem ok_bind {α β : Type} (a : α) (f : α → Except ScriptEntryListError β) :
    (Except.ok a >>= f : Except ScriptEntryListError β) = f a := rfl

theorem drop_add (data : List Nat) (p k : Nat) :
    data.drop (p + k) = (data.drop p).drop k := by
  rw [List.drop_drop]

theorem drop_append_exact {α : Type} (pre suf : List α) (p : Nat) (h : p = pre.length) :
    (pre ++ suf).drop p = suf := by
  subst h
  exact List.drop_left pre suf

theorem drop_le32 (v : Nat) (rest : List Nat) : (le32 v ++ rest).drop 4 = rest := by
  rw [show (4 : Nat) = (le32 v).length from (le32_length v).symm, List.drop_left]

/-- Reading a `u32` field whose little-endian bytes sit at position `p`
recovers the field value (modulo the `as u32` cast). -/
theorem read_u32_of_drop (data : List Nat) (p v : Nat) (rest : List Nat)
    (h : data.drop p = le32 v ++ rest) :
    read_u32_at data p = .ok (v % 4294967296) := by
  unfold read_u32_at
  rw [h, show (le32 v ++ rest).take 4 = le32 v from by
    rw [show (4 : Nat) = (le32 v).length from (le32_length v).symm, List.take_left]]
  simp only [le32]
  show Except.ok (fromLe32 (v % 256) (v / 256 % 256) (v / 65536 % 256)
    (v / 16777216 % 256)) = Except.ok (v % 4294967296)
  have : fromLe32 (v % 256) (v / 256 % 256) (v / 65536 % 256) (v / 16777216 % 256) =
      v % 4294967296 := by
    unfold fromLe32
    omega
  rw [this]

/-- Reading `vs.length` consecutive `u32` fields over their concatenated
little-endian bytes. -/
theorem readU32List_of_drop (data : List Nat) : ∀ (vs : List Nat) (p : Nat) (rest : List Nat),
    data.drop p = (vs.map le32).flatten ++ rest →
    readU32List data p vs.length = .ok (vs.map (· % 4294967296)) := by
  intro vs
  induction vs with
  | nil => intro p rest h; simp [readU32List]
  | cons v tl ih =>
    intro p rest h
    have h1 : data.drop p = le32 v ++ ((tl.map le32).flatten ++ rest) := by
      rw [h]; simp [List.append_assoc]
    rw [List.length_cons, readU32List, read_u32_of_drop data p v _ h1, ok_bind,
      ih (p + 4) rest (by rw [drop_add, h1, drop_le32]), ok_bind]
    rfl

/-- A Unicode scalar value is never a surrogate. -/
theorem char_not_surrogate (c : Char) : c.toNat < 55296 ∨ 57344 ≤ c.toNat := by
  have h := c.valid
  unfold UInt32.isValidChar at h
  unfold Nat.isValidChar at h
  have he : c.toNat = c.val.toNat := rfl
  omega

/-- Reading back an all-ASCII narrow string stored with its terminator. -/
theorem readUtf8_ok : ∀ (s : List Char) (rest : List Nat),
    (∀ c ∈ s, 0 < c.toNat ∧ c.toNat < 128) →
    readUtf8Loop (utf8Bytes s ++ 0 :: rest) = .ok s := by
  intro s
  induction s with
  | nil => intro rest _; simp [utf8Bytes, readUtf8Loop]
  | cons c tl ih =>
    intro rest h
    have hc := h c (by simp)
    have henc : utf8EncodeChar c = [c.toNat] := by
      unfold utf8EncodeChar
      rw [if_pos hc.2]
    simp only [utf8Bytes, List.map_cons, List.flatten_cons, henc, List.cons_append,
      List.nil_append, List.append_assoc]
    rw [readUtf8Loop, if_neg (by omega), if_pos hc.2]
    have htl : (tl.map utf8EncodeChar).flatten = utf8Bytes tl := rfl
    rw [htl, ih rest (fun c hc => h c (by simp [hc])), ok_bind, Char.ofNat_toNat]

/-- One BMP scalar turns into one little-endian code unit on the wire. -/
theorem string_to_utf16_cons_bmp (c : Char) (tl : List Char) (h : c.toNat < 65536) :
    string_to_utf16 (c :: tl) =
      c.toNat % 256 :: (c.toNat / 256 % 256 :: string_to_utf16 tl) := by
  simp [string_to_utf16, encodeUtf16Char, if_pos h, le16]

/-- Reading back an all-BMP wide string stored with its terminator. -/
theorem readUtf16_ok : ∀ (s : List Char) (rest : List Nat),
    (∀ c ∈ s, 0 < c.toNat ∧ c.toNat < 65536) →
    readUtf16Loop (string_to_utf16 s ++ 0 :: 0 :: rest) = .ok s := by
  intro s
  induction s with
  | nil => intro rest _; simp [string_to_utf16, readUtf16Loop]
  | cons c tl ih =>
    intro rest h
    have hc := h c (by simp)
    rw [string_to_utf16_cons_bmp c tl hc.2, List.cons_append, List.cons_append]
    simp only [readUtf16Loop]
    have hch : c.toNat % 256 + 256 * (c.toNat / 256 % 256) = c.toNat := by omega
    rw [hch, if_neg (by omega), if_neg (by have := char_not_surrogate c; omega)]
    rw [ih rest (fun c hc => h c (by simp [hc])), ok_bind, Char.ofNat_toNat]

theorem drop_after_terminated {α : Type} (A : List α) (z : α) (Y : List α) :
    (A ++ z :: Y).drop (A.length + 1) = Y :=
  (List.drop_append 1).trans rfl

theorem drop_after_terminated2 {α : Type} (A : List α) (z w : α) (Y : List α) :
    (A ++ z :: w :: Y).drop (A.length + 2) = Y :=
  (List.drop_append 2).trans rfl

/-- Looking a pooled narrow string up in the offset map lands exactly on its
stored, terminated bytes; the offset stays inside the pool region. -/
theorem utf8_pool_get (data : List Nat) : ∀ (ws : List (List Char)) (base : Nat)
    (rest : List Nat) (s : List Char),
    data.drop base = utf8PoolBytes ws ++ rest → s ∈ ws →
    (base ≤ mapGet (utf8Offsets base ws) s ∧
      mapGet (utf8Offsets base ws) s + (utf8Bytes s).length ≤
        base + (utf8PoolBytes ws).length) ∧
    ∃ rest2, data.drop (mapGet (utf8Offsets base ws) s) = utf8Bytes s ++ 0 :: rest2 := by
  intro ws
  induction ws with
  | nil => intro base rest s _ hs; simp at hs
  | cons s0 tl ih =>
    intro base rest s hdrop hs
    have hlen : (utf8PoolBytes (s0 :: tl)).length =
        (utf8Bytes s0).length + 1 + (utf8PoolBytes tl).length := by
      simp [utf8PoolBytes]
      omega
    rw [utf8Offsets]
    by_cases he : s = s0
    · subst he
      rw [mapGet, if_pos rfl]
      refine ⟨⟨Nat.le_refl base, by omega⟩, utf8PoolBytes tl ++ rest, ?_⟩
      rw [hdrop]
      simp [utf8PoolBytes, List.append_assoc]
    · rw [mapGet, if_neg he]
      have hs' : s ∈ tl := by
        rcases List.mem_cons.mp hs with h | h
        · exact absurd h he
        · exact h
      have hdrop' : data.drop (base + ((utf8Bytes s0).length + 1)) =
          utf8PoolBytes tl ++ rest := by
        rw [drop_add, hdrop]
        rw [show utf8PoolBytes (s0 :: tl) ++ rest =
          utf8Bytes s0 ++ 0 :: (utf8PoolBytes tl ++ rest) from by
            simp [utf8PoolBytes, List.append_assoc]]
        exact drop_after_terminated _ _ _
      have := ih (base + ((utf8Bytes s0).length + 1)) rest s hdrop' hs'
      exact ⟨⟨by omega, by omega⟩, this.2⟩

/-- Looking a pooled wide string up in the offset map lands exactly on its
stored, terminated code units; the offset stays inside the pool region. -/
theorem utf16_pool_get (data : List Nat) : ∀ (ws : List (List Char)) (base : Nat)
    (rest : List Nat) (s : List Char),
    data.drop base = utf16PoolBytes ws ++ rest → s ∈ ws →
    (base ≤ mapGet (utf16Offsets base ws) s ∧
      mapGet (utf16Offsets base ws) s + (string_to_utf16 s).length ≤
        base + (utf16PoolBytes ws).length) ∧
    ∃ rest2, data.drop (mapGet (utf16Offsets base ws) s) =
      string_to_utf16 s ++ 0 :: 0 :: rest2 := by
  intro ws
  induction ws with
  | nil => intro base rest s _ hs; simp at hs
  | cons s0 tl ih =>
    intro base rest s hdrop hs
    have hlen : (utf16PoolBytes (s0 :: tl)).length =
        (string_to_utf16 s0).length + 2 + (utf16PoolBytes tl).length := by
      simp [utf16PoolBytes]
      omega
    rw [utf16Offsets]
    by_cases he : s = s0
    · subst he
      rw [mapGet, if_pos rfl]
      refine ⟨⟨Nat.le_refl base, by omega⟩, utf16PoolBytes tl ++ rest, ?_⟩
      rw [hdrop]
      simp [utf16PoolBytes, List.append_assoc]
    · rw [mapGet, if_neg he]
      have hs' : s ∈ tl := by
        rcases List.mem_cons.mp hs with h | h
        · exact absurd h he
        · exact h
      have hdrop' : data.drop (base + ((string_to_utf16 s0).length + 2)) =
          utf16PoolBytes tl ++ rest := by
        rw [drop_add, hdrop]
        rw [show utf16PoolBytes (s0 :: tl) ++ rest =
          string_to_utf16 s0 ++ 0 :: 0 :: (utf16PoolBytes tl ++ rest) from by
            simp [utf16PoolBytes, List.append_assoc]]
        exact drop_after_terminated2 _ _ _ _
      have := ih (base + ((string_to_utf16 s0).length + 2)) rest s hdrop' hs'
      exact ⟨⟨by omega, by omega⟩, this.2⟩

theorem tableBytes_length (l : ScriptEntryList) :
    (tableBytes l).length = 4 * l.entries.length := by
  rw [tableBytes, flatten_map_le32_length]
  simp [entriesPointerList]

theorem recordsBytes_length (l : ScriptEntryList) :
    (recordsBytes l).length = 20 * l.entries.length :=
  recordsBytesAux_length _ _ _ _ _

theorem flagsPointerList_getD (l : ScriptEntryList) (k : Nat)
    (hk : k < l.entries.length) :
    (flagsPointerList l).getD k 0 = flagsStart l + 16 * k := by
  rw [flagsPointerList, List.getD_eq_getElem _ _ (by simpa using hk),
    List.getElem_map, List.getElem_range]

/-- Dropping `k` whole records off a record block. -/
theorem recordsBytesAux_drop (m8 m16 : List (List Char × Nat)) (fps : List Nat) :
    ∀ (k : Nat) (es : List ScriptEntry) (i : Nat), k ≤ es.length →
    (recordsBytesAux m8 m16 fps es i).drop (20 * k) =
      recordsBytesAux m8 m16 fps (es.drop k) (i + k) := by
  intro k
  induction k with
  | zero => intro es i _; simp
  | succ j ihj =>
    intro es i hk
    cases es with
    | nil => simp at hk
    | cons e tl =>
      rw [recordsBytesAux]
      rw [show 20 * (j + 1) =
        (entryRecordBytes m8 m16 (fps.getD i 0) e).length + 20 * j from by
          rw [entryRecordBytes_length]; omega]
      rw [List.drop_append, ihj tl (i + 1) (by simpa using hk)]
      show _ = recordsBytesAux m8 m16 fps (tl.drop j) (i + (j + 1))
      exact congrArg (recordsBytesAux m8 m16 fps (tl.drop j) ·) (by omega)

/-- Dropping `k` whole blocks off the flag block region. -/
theorem flagsFlatten_drop : ∀ (k : Nat) (es : List ScriptEntry), k ≤ es.length →
    ((es.map (fun e => flagsBytes e.flags)).flatten).drop (16 * k) =
      ((es.drop k).map (fun e => flagsBytes e.flags)).flatten := by
  intro k
  induction k with
  | zero => intro es _; simp
  | succ j ihj =>
    intro es hk
    cases es with
    | nil => simp at hk
    | cons e tl =>
      rw [List.map_cons, List.flatten_cons]
      rw [show 16 * (j + 1) = (flagsBytes e.flags).length + 16 * j from by
        rw [flagsBytes_length]; omega]
      rw [List.drop_append, ihj tl (by simpa using hk)]
      rfl

/-! ### Dropping to each region of the encoded stream -/

theorem enc_drop_24 (l : ScriptEntryList) (footer : List Nat → List Nat) :
    (encodedBytes l footer).drop 24 =
      tableBytes l ++ (recordsBytes l ++ (flagsAllBytes l ++
        (utf16PoolBytes (collectUtf16Strings l.entries) ++
          (utf8PoolBytes (collectUtf8Strings l.entries) ++
            (List.replicate ((4 - contentEnd l % 4) % 4) 0 ++
              footer (sir0Pointers l)))))) := by
  rw [show encodedBytes l footer =
    ([83, 73, 82, 48] ++ (le32 16 ++ (le32 (sir0ListPadded l) ++ ([0, 0, 0, 0] ++
      (le32 l.entries.length ++ le32 24))))) ++
    (tableBytes l ++ (recordsBytes l ++ (flagsAllBytes l ++
      (utf16PoolBytes (collectUtf16Strings l.entries) ++
        (utf8PoolBytes (collectUtf8Strings l.entries) ++
          (List.replicate ((4 - contentEnd l % 4) % 4) 0 ++
            footer (sir0Pointers l))))))) from by
      simp [encodedBytes, paddedContent, List.append_assoc]]
  exact drop_append_exact _ _ _ (by simp [le32_length])

theorem enc_drop_recStart (l : ScriptEntryList) (footer : List Nat → List Nat) :
    (encodedBytes l footer).drop (24 + 4 * l.entries.length) =
      recordsBytes l ++ (flagsAllBytes l ++
        (utf16PoolBytes (collectUtf16Strings l.entries) ++
          (utf8PoolBytes (collectUtf8Strings l.entries) ++
            (List.replicate ((4 - contentEnd l % 4) % 4) 0 ++
              footer (sir0Pointers l))))) := by
  rw [drop_add, enc_drop_24]
  exact drop_append_exact _ _ _ (tableBytes_length l).symm

theorem enc_drop_flagsStart (l : ScriptEntryList) (footer : List Nat → List Nat) :
    (encodedBytes l footer).drop (24 + 4 * l.entries.length + 20 * l.entries.length) =
      flagsAllBytes l ++
        (utf16PoolBytes (collectUtf16Strings l.entries) ++
          (utf8PoolBytes (collectUtf8Strings l.entries) ++
            (List.replicate ((4 - contentEnd l % 4) % 4) 0 ++
              footer (sir0Pointers l)))) := by
  rw [drop_add, enc_drop_recStart]
  exact drop_append_exact _ _ _ (recordsBytes_length l).symm

theorem enc_drop_pool16 (l : ScriptEntryList) (footer : List Nat → List Nat) :
    (encodedBytes l footer).drop (pool16Start l) =
      utf16PoolBytes (collectUtf16Strings l.entries) ++
        (utf8PoolBytes (collectUtf8Strings l.entries) ++
          (List.replicate ((4 - contentEnd l % 4) % 4) 0 ++
            footer (sir0Pointers l))) := by
  rw [pool16Start, flagsStart, recStart, drop_add, enc_drop_flagsStart]
  refine drop_append_exact _ _ _ ?_
  rw [flagsAllBytes, flagsAllFlatten_length]

theorem enc_drop_pool8 (l : ScriptEntryList) (footer : List Nat → List Nat) :
    (encodedBytes l footer).drop (pool8Start l) =
      utf8PoolBytes (collectUtf8Strings l.entries) ++
        (List.replicate ((4 - contentEnd l % 4) % 4) 0 ++
          footer (sir0Pointers l)) := by
  rw [pool8Start, drop_add, enc_drop_pool16]
  exact drop_append_exact _ _ _ rfl

/-! ### The deduplicated string sets: membership and no duplicates -/

theorem insertNew_mem_of_mem (l : List (List Char)) (x y : List Char) (h : x ∈ l) :
    x ∈ insertNew l y := by
  unfold insertNew
  split
  · exact h
  · exact List.mem_append_left _ h

theorem insertNew_mem_self (l : List (List Char)) (x : List Char) :
    x ∈ insertNew l x := by
  unfold insertNew
  split
  · assumption
  · simp

theorem insertNew_nodup (l : List (List Char)) (x : List Char) (h : l.Nodup) :
    (insertNew l x).Nodup := by
  unfold insertNew
  split
  · exact h
  · next hx => simp [List.nodup_append, h, hx]

theorem mem_foldl16 : ∀ (es : List ScriptEntry) (acc : List (List Char)) (x : List Char),
    x ∈ acc →
    x ∈ es.foldl (fun acc e => insertNew (insertNew acc e.lua_path) e.plb_path) acc := by
  intro es
  induction es with
  | nil => intro acc x h; simpa using h
  | cons e tl ih =>
    intro acc x h
    exact ih _ x (insertNew_mem_of_mem _ _ _ (insertNew_mem_of_mem _ _ _ h))

theorem mem_foldl8 : ∀ (es : List ScriptEntry) (acc : List (List Char)) (x : List Char),
    x ∈ acc →
    x ∈ es.foldl (fun acc e => insertNew (insertNew acc e.entity_name) e.map_name) acc := by
  intro es
  induction es with
  | nil => intro acc x h; simpa using h
  | cons e tl ih =>
    intro acc x h
    exact ih _ x (insertNew_mem_of_mem _ _ _ (insertNew_mem_of_mem _ _ _ h))

/-- Every entry's wide strings end up in the deduplicated wide-string set. -/
theorem mem_collectUtf16 : ∀ (es : List ScriptEntry) (acc : List (List Char))
    (e : ScriptEntry), e ∈ es →
    e.lua_path ∈ es.foldl (fun acc e => insertNew (insertNew acc e.lua_path) e.plb_path) acc ∧
    e.plb_path ∈ es.foldl (fun acc e => insertNew (insertNew acc e.lua_path) e.plb_path) acc := by
  intro es
  induction es with
  | nil => intro acc e h; simp at h
  | cons e0 tl ih =>
    intro acc e h
    rcases List.mem_cons.mp h with h | h
    · subst h
      refine ⟨mem_foldl16 tl _ _ ?_, mem_foldl16 tl _ _ ?_⟩
      · exact insertNew_mem_of_mem _ _ _ (insertNew_mem_self _ _)
      · exact insertNew_mem_self _ _
    · exact ih _ e h

/-- Every entry's narrow strings end up in the deduplicated narrow-string
set. -/
theorem mem_collectUtf8 : ∀ (es : List ScriptEntry) (acc : List (List Char))
    (e : ScriptEntry), e ∈ es →
    e.entity_name ∈
      es.foldl (fun acc e => insertNew (insertNew acc e.entity_name) e.map_name) acc ∧
    e.map_name ∈
      es.foldl (fun acc e => insertNew (insertNew acc e.entity_name) e.map_name) acc := by
  intro es
  induction es with
  | nil => intro acc e h; simp at h
  | cons e0 tl ih =>
    intro acc e h
    rcases List.mem_cons.mp h with h | h
    · subst h
      refine ⟨mem_foldl8 tl _ _ ?_, mem_foldl8 tl _ _ ?_⟩
      · exact insertNew_mem_of_mem _ _ _ (insertNew_mem_self _ _)
      · exact insertNew_mem_self _ _
    · exact ih _ e h

theorem collectUtf16_nodup (es : List ScriptEntry) :
    (collectUtf16Strings es).Nodup := by
  suffices h : ∀ (es : List ScriptEntry) (acc : List (List Char)), acc.Nodup →
      (es.foldl (fun acc e => insertNew (insertNew acc e.lua_path) e.plb_path) acc).Nodup by
    exact h es [] List.nodup_nil
  intro es
  induction es with
  | nil => intro acc h; simpa using h
  | cons e tl ih =>
    intro acc h
    exact ih _ (insertNew_nodup _ _ (insertNew_nodup _ _ h))

theorem collectUtf8_nodup (es : List ScriptEntry) :
    (collectUtf8Strings es).Nodup := by
  suffices h : ∀ (es : List ScriptEntry) (acc : List (List Char)), acc.Nodup →
      (es.foldl (fun acc e => insertNew (insertNew acc e.entity_name) e.map_name) acc).Nodup by
    exact h es [] List.nodup_nil
  intro es
  induction es with
  | nil => intro acc h; simpa using h
  | cons e tl ih =>
    intro acc h
    exact ih _ (insertNew_nodup _ _ (insertNew_nodup _ _ h))

/-- Destructuring a four-element list. -/
theorem list_len4 {α : Type} (l : List α) (h : l.length = 4) :
    ∃ a b c d, l = [a, b, c, d] := by
  cases l with
  | nil => simp at h
  | cons a t1 =>
    cases t1 with
    | nil => simp at h
    | cons b t2 =>
      cases t2 with
      | nil => simp at h
      | cons c t3 =>
        cases t3 with
        | nil => simp at h
        | cons d t4 =>
          cases t4 with
          | nil => exact ⟨a, b, c, d, rfl⟩
          | cons x t5 => simp at h

set_option maxHeartbeats 4000000 in
/-- Reading the k-th entry record of an encoded stream yields the k-th
input entry. -/
theorem readEntry_encoded (l : ScriptEntryList) (footer : List Nat → List Nat)
    (hg : ∀ e ∈ l.entries, goodEntry e) (hsz : contentEnd l < 4294967296)
    (k : Nat) (hk : k < l.entries.length) :
    readEntry (encodedBytes l footer) (24 + 4 * l.entries.length + 20 * k) =
      .ok (l.entries.getD k default) := by
  have hge : l.entries[k] = l.entries.getD k default :=
    (List.getD_eq_getElem _ _ hk).symm
  have hmem : l.entries.getD k default ∈ l.entries := by
    rw [← hge]
    exact List.getElem_mem hk
  obtain ⟨hflen, hfbnd, hent, hmap, hlua, hplb⟩ := hg _ hmem
  -- the five pointer fields of record `k`
  have hd0 : (encodedBytes l footer).drop (24 + 4 * l.entries.length + 20 * k) =
      le32 (mapGet (utf8Map l) (l.entries.getD k default).entity_name) ++
        (le32 (mapGet (utf8Map l) (l.entries.getD k default).map_name) ++
          (le32 (mapGet (utf16Map l) (l.entries.getD k default).lua_path) ++
            (le32 (mapGet (utf16Map l) (l.entries.getD k default).plb_path) ++
              (le32 (flagsStart l + 16 * k) ++
                (recordsBytesAux (utf8Map l) (utf16Map l) (flagsPointerList l)
                    (l.entries.drop (k + 1)) (k + 1) ++
                  (flagsAllBytes l ++
                    (utf16PoolBytes (collectUtf16Strings l.entries) ++
                      (utf8PoolBytes (collectUtf8Strings l.entries) ++
                        (List.replicate ((4 - contentEnd l % 4) % 4) 0 ++
                          footer (sir0Pointers l)))))))))) := by
    rw [drop_add, enc_drop_recStart,
      List.drop_append_of_le_length (by rw [recordsBytes_length]; omega),
      recordsBytes, recordsBytesAux_drop _ _ _ k l.entries 0 (by omega),
      List.drop_eq_getElem_cons hk, hge, recordsBytesAux, Nat.zero_add,
      flagsPointerList_getD l k hk]
    simp only [entryRecordBytes, List.append_assoc]
  -- pool facts for the four strings
  have hm8a : (l.entries.getD k default).entity_name ∈ collectUtf8Strings l.entries :=
    (mem_collectUtf8 l.entries [] _ hmem).1
  have hm8b : (l.entries.getD k default).map_name ∈ collectUtf8Strings l.entries :=
    (mem_collectUtf8 l.entries [] _ hmem).2
  have hm16a : (l.entries.getD k default).lua_path ∈ collectUtf16Strings l.entries :=
    (mem_collectUtf16 l.entries [] _ hmem).1
  have hm16b : (l.entries.getD k default).plb_path ∈ collectUtf16Strings l.entries :=
    (mem_collectUtf16 l.entries [] _ hmem).2
  have hp8 := utf8_pool_get (encodedBytes l footer) (collectUtf8Strings l.entries)
    (pool8Start l) _ _ (enc_drop_pool8 l footer) hm8a
  have hp8b := utf8_pool_get (encodedBytes l footer) (collectUtf8Strings l.entries)
    (pool8Start l) _ _ (enc_drop_pool8 l footer) hm8b
  have hp16 := utf16_pool_get (encodedBytes l footer) (collectUtf16Strings l.entries)
    (pool16Start l) _ _ (enc_drop_pool16 l footer) hm16a
  have hp16b := utf16_pool_get (encodedBytes l footer) (collectUtf16Strings l.entries)
    (pool16Start l) _ _ (enc_drop_pool16 l footer) hm16b
  rw [show utf8Offsets (pool8Start l) (collectUtf8Strings l.entries) = utf8Map l from rfl]
    at hp8 hp8b
  rw [show utf16Offsets (pool16Start l) (collectUtf16Strings l.entries) = utf16Map l from rfl]
    at hp16 hp16b
  -- size facts
  have hceq : contentEnd l =
      pool8Start l + (utf8PoolBytes (collectUtf8Strings l.entries)).length := rfl
  have hp8eq : pool8Start l =
      pool16Start l + (utf16PoolBytes (collectUtf16Strings l.entries)).length := rfl
  have hp16eq : pool16Start l = flagsStart l + 16 * l.entries.length := rfl
  have hlt1 : mapGet (utf8Map l) (l.entries.getD k default).entity_name < 4294967296 := by
    have := hp8.1
    omega
  have hlt2 : mapGet (utf8Map l) (l.entries.getD k default).map_name < 4294967296 := by
    have := hp8b.1
    omega
  have hlt3 : mapGet (utf16Map l) (l.entries.getD k default).lua_path < 4294967296 := by
    have := hp16.1
    omega
  have hlt4 : mapGet (utf16Map l) (l.entries.getD k default).plb_path < 4294967296 := by
    have := hp16b.1
    omega
  have hltF : flagsStart l + 16 * k < 4294967296 := by omega
  -- the five field reads
  have hr1 : read_u32_at (encodedBytes l footer) (24 + 4 * l.entries.length + 20 * k) =
      .ok (mapGet (utf8Map l) (l.entries.getD k default).entity_name) := by
    rw [read_u32_of_drop _ _ _ _ hd0, Nat.mod_eq_of_lt hlt1]
  have hd1 : (encodedBytes l footer).drop (24 + 4 * l.entries.length + 20 * k + 4) =
      le32 (mapGet (utf8Map l) (l.entries.getD k default).map_name) ++
        (le32 (mapGet (utf16Map l) (l.entries.getD k default).lua_path) ++
          (le32 (mapGet (utf16Map l) (l.entries.getD k default).plb_path) ++
            (le32 (flagsStart l + 16 * k) ++
              (recordsBytesAux (utf8Map l) (utf16Map l) (flagsPointerList l)
                  (l.entries.drop (k + 1)) (k + 1) ++
                (flagsAllBytes l ++
                  (utf16PoolBytes (collectUtf16Strings l.entries) ++
                    (utf8PoolBytes (collectUtf8Strings l.entries) ++
                      (List.replicate ((4 - contentEnd l % 4) % 4) 0 ++
                        footer (sir0Pointers l))))))))) := by
    rw [drop_add, hd0, drop_le32]
  have hr2 : read_u32_at (encodedBytes l footer)
      (24 + 4 * l.entries.length + 20 * k + 4) =
      .ok (mapGet (utf8Map l) (l.entries.getD k default).map_name) := by
    rw [read_u32_of_drop _ _ _ _ hd1, Nat.mod_eq_of_lt hlt2]
  have hd2 : (encodedBytes l footer).drop (24 + 4 * l.entries.length + 20 * k + 8) =
      le32 (mapGet (utf16Map l) (l.entries.getD k default).lua_path) ++
        (le32 (mapGet (utf16Map l) (l.entries.getD k default).plb_path) ++
          (le32 (flagsStart l + 16 * k) ++
            (recordsBytesAux (utf8Map l) (utf16Map l) (flagsPointerList l)
                (l.entries.drop (k + 1)) (k + 1) ++
              (flagsAllBytes l ++
                (utf16PoolBytes (collectUtf16Strings l.entries) ++
                  (utf8PoolBytes (collectUtf8Strings l.entries) ++
                    (List.replicate ((4 - contentEnd l % 4) % 4) 0 ++
                      footer (sir0Pointers l)))))))) := by
    rw [show 24 + 4 * l.entries.length + 20 * k + 8 =
      24 + 4 * l.entries.length + 20 * k + 4 + 4 from by omega, drop_add, hd1, drop_le32]
  have hr3 : read_u32_at (encodedBytes l footer)
      (24 + 4 * l.entries.length + 20 * k + 8) =
      .ok (mapGet (utf16Map l) (l.entries.getD k default).lua_path) := by
    rw [read_u32_of_drop _ _ _ _ hd2, Nat.mod_eq_of_lt hlt3]
  have hd3 : (encodedBytes l footer).drop (24 + 4 * l.entries.length + 20 * k + 12) =
      le32 (mapGet (utf16Map l) (l.entries.getD k default).plb_path) ++
        (le32 (flagsStart l + 16 * k) ++
          (recordsBytesAux (utf8Map l) (utf16Map l) (flagsPointerList l)
              (l.entries.drop (k + 1)) (k + 1) ++
            (flagsAllBytes l ++
              (utf16PoolBytes (collectUtf16Strings l.entries) ++
                (utf8PoolBytes (collectUtf8Strings l.entries) ++
                  (List.replicate ((4 - contentEnd l % 4) % 4) 0 ++
                    footer (sir0Pointers l))))))) := by
    rw [show 24 + 4 * l.entries.length + 20 * k + 12 =
      24 + 4 * l.entries.length + 20 * k + 8 + 4 from by omega, drop_add, hd2, drop_le32]
  have hr4 : read_u32_at (encodedBytes l footer)
      (24 + 4 * l.entries.length + 20 * k + 12) =
      .ok (mapGet (utf16Map l) (l.entries.getD k default).plb_path) := by
    rw [read_u32_of_drop _ _ _ _ hd3, Nat.mod_eq_of_lt hlt4]
  have hd4 : (encodedBytes l footer).drop (24 + 4 * l.entries.length + 20 * k + 16) =
      le32 (flagsStart l + 16 * k) ++
        (recordsBytesAux (utf8Map l) (utf16Map l) (flagsPointerList l)
            (l.entries.drop (k + 1)) (k + 1) ++
          (flagsAllBytes l ++
            (utf16PoolBytes (collectUtf16Strings l.entries) ++
              (utf8PoolBytes (collectUtf8Strings l.entries) ++
                (List.replicate ((4 - contentEnd l % 4) % 4) 0 ++
                  footer (sir0Pointers l)))))) := by
    rw [show 24 + 4 * l.entries.length + 20 * k + 16 =
      24 + 4 * l.entries.length + 20 * k + 12 + 4 from by omega, drop_add, hd3, drop_le32]
  have hr5 : read_u32_at (encodedBytes l footer)
      (24 + 4 * l.entries.length + 20 * k + 16) =
      .ok (flagsStart l + 16 * k) := by
    rw [read_u32_of_drop _ _ _ _ hd4, Nat.mod_eq_of_lt hltF]
  -- the four string reads
  obtain ⟨r1, hstr1⟩ := hp8.2
  obtain ⟨r2, hstr2⟩ := hp8b.2
  obtain ⟨r3, hstr3⟩ := hp16.2
  obtain ⟨r4, hstr4⟩ := hp16b.2
  have hs1 : read_referenced_utf8_string (encodedBytes l footer)
      (mapGet (utf8Map l) (l.entries.getD k default).entity_name) =
      .ok (l.entries.getD k default).entity_name := by
    rw [read_referenced_utf8_string, hstr1, readUtf8_ok _ _ hent]
  have hs2 : read_referenced_utf8_string (encodedBytes l footer)
      (mapGet (utf8Map l) (l.entries.getD k default).map_name) =
      .ok (l.entries.getD k default).map_name := by
    rw [read_referenced_utf8_string, hstr2, readUtf8_ok _ _ hmap]
  have hs3 : read_referenced_utf16_string (encodedBytes l footer)
      (mapGet (utf16Map l) (l.entries.getD k default).lua_path) =
      .ok (l.entries.getD k default).lua_path := by
    rw [read_referenced_utf16_string, hstr3, readUtf16_ok _ _ hlua]
  have hs4 : read_referenced_utf16_string (encodedBytes l footer)
      (mapGet (utf16Map l) (l.entries.getD k default).plb_path) =
      .ok (l.entries.getD k default).plb_path := by
    rw [read_referenced_utf16_string, hstr4, readUtf16_ok _ _ hplb]
  -- the flags read
  obtain ⟨f0, f1, f2, f3, hfeq⟩ := list_len4 _ hflen
  have hdF : (encodedBytes l footer).drop (flagsStart l + 16 * k) =
      flagsBytes (l.entries.getD k default).flags ++
        (((l.entries.drop (k + 1)).map (fun e => flagsBytes e.flags)).flatten ++
          (utf16PoolBytes (collectUtf16Strings l.entries) ++
            (utf8PoolBytes (collectUtf8Strings l.entries) ++
              (List.replicate ((4 - contentEnd l % 4) % 4) 0 ++
                footer (sir0Pointers l))))) := by
    rw [show flagsStart l + 16 * k =
      24 + 4 * l.entries.length + 20 * l.entries.length + 16 * k from by
        rw [flagsStart, recStart]]
    rw [drop_add, enc_drop_flagsStart,
      List.drop_append_of_le_length (by rw [flagsAllBytes, flagsAllFlatten_length]; omega),
      flagsAllBytes, flagsFlatten_drop k l.entries (by omega),
      List.drop_eq_getElem_cons hk, hge, List.map_cons, List.flatten_cons]
    simp only [List.append_assoc]
  have hfb0 : f0 < 4294967296 := hfbnd f0 (by rw [hfeq]; simp)
  have hfb1 : f1 < 4294967296 := hfbnd f1 (by rw [hfeq]; simp)
  have hfb2 : f2 < 4294967296 := hfbnd f2 (by rw [hfeq]; simp)
  have hfb3 : f3 < 4294967296 := hfbnd f3 (by rw [hfeq]; simp)
  have hflagsRead : readU32List (encodedBytes l footer) (flagsStart l + 16 * k) 4 =
      .ok (l.entries.getD k default).flags := by
    have h4 := readU32List_of_drop (encodedBytes l footer) [f0, f1, f2, f3]
      (flagsStart l + 16 * k)
      (((l.entries.drop (k + 1)).map (fun e => flagsBytes e.flags)).flatten ++
        (utf16PoolBytes (collectUtf16Strings l.entries) ++
          (utf8PoolBytes (collectUtf8Strings l.entries) ++
            (List.replicate ((4 - contentEnd l % 4) % 4) 0 ++
              footer (sir0Pointers l)))))
      (by rw [hdF, hfeq]
          simp [flagsBytes, List.append_assoc])
    rw [show ([f0, f1, f2, f3] : List Nat).length = 4 from rfl] at h4
    rw [h4, hfeq]
    simp [Nat.mod_eq_of_lt hfb0, Nat.mod_eq_of_lt hfb1, Nat.mod_eq_of_lt hfb2,
      Nat.mod_eq_of_lt hfb3]
  -- assembling
  simp only [readEntry]
  rw [hr1, ok_bind, hr2, ok_bind, hr3, ok_bind, hr4, ok_bind, hr5, ok_bind,
    hs1, ok_bind, hs2, ok_bind, hs3, ok_bind, hs4, ok_bind, hflagsRead, ok_bind]

theorem readEntries_map_ok (data : List Nat) (f : Nat → Nat) (g : Nat → ScriptEntry) :
    ∀ idxs : List Nat, (∀ k ∈ idxs, readEntry data (f k) = .ok (g k)) →
    readEntries data (idxs.map f) = .ok (idxs.map g) := by
  intro idxs
  induction idxs with
  | nil => intro _; simp [readEntries]
  | cons k tl ih =>
    intro h
    rw [List.map_cons, readEntries, h k (by simp), ok_bind,
      ih (fun k hk => h k (by simp [hk])), ok_bind]
    rfl

theorem map_getD_range (es : List ScriptEntry) :
    (List.range es.length).map (fun k => es.getD k default) = es := by
  induction es with
  | nil => simp
  | cons e tl ih =>
    rw [List.length_cons, List.range_succ_eq_map, List.map_cons, List.map_map]
    have htail : List.map ((fun k => (e :: tl).getD k default) ∘ Nat.succ)
        (List.range tl.length) = tl := by
      have hmm : List.map ((fun k => (e :: tl).getD k default) ∘ Nat.succ)
          (List.range tl.length)
          = List.map (fun k => tl.getD k default) (List.range tl.length) :=
        List.map_eq_map_iff.mpr fun a _ => by simp [Function.comp]
      rw [hmm, ih]
    rw [htail]
    rfl

set_option maxHeartbeats 4000000 in
/-- Round trip: decoding a fresh-stream encode of a list of good entries
(whatever bytes the external footer encoder appends) returns the input list
unchanged. -/
theorem decode_encode_aux (l : ScriptEntryList) (footer : List Nat → List Nat)
    (hg : ∀ e ∈ l.entries, goodEntry e) (hsz : contentEnd l < 4294967296) :
    new_from_file ((write_to_file l footer ⟨[], 0⟩).1.data) = .ok l := by
  rw [write_to_file_eq]
  show new_from_file (encodedBytes l footer) = .ok l
  have hceq : contentEnd l =
      pool8Start l + (utf8PoolBytes (collectUtf8Strings l.entries)).length := rfl
  have hp8eq : pool8Start l =
      pool16Start l + (utf16PoolBytes (collectUtf16Strings l.entries)).length := rfl
  have hp16eq : pool16Start l = flagsStart l + 16 * l.entries.length := rfl
  have hfseq : flagsStart l = recStart l + 20 * l.entries.length := rfl
  have hrseq : recStart l = 24 + 4 * l.entries.length := rfl
  have hnlt : l.entries.length < 4294967296 := by omega
  -- the header region
  have hdA : (encodedBytes l footer).drop 4 =
      le32 16 ++
        (le32 (sir0ListPadded l) ++
          ([0, 0, 0, 0] ++
            (le32 l.entries.length ++
              (le32 24 ++
                (tableBytes l ++
                  (recordsBytes l ++
                    (flagsAllBytes l ++
                      (utf16PoolBytes (collectUtf16Strings l.entries) ++
                        (utf8PoolBytes (collectUtf8Strings l.entries) ++
                          (List.replicate ((4 - contentEnd l % 4) % 4) 0 ++
                            footer (sir0Pointers l))))))))))) := by
    rw [show encodedBytes l footer = [83, 73, 82, 48] ++
      (le32 16 ++
        (le32 (sir0ListPadded l) ++
          ([0, 0, 0, 0] ++
            (le32 l.entries.length ++
              (le32 24 ++
                (tableBytes l ++
                  (recordsBytes l ++
                    (flagsAllBytes l ++
                      (utf16PoolBytes (collectUtf16Strings l.entries) ++
                        (utf8PoolBytes (collectUtf8Strings l.entries) ++
                          (List.replicate ((4 - contentEnd l % 4) % 4) 0 ++
                            footer (sir0Pointers l)))))))))))) from by
        simp [encodedBytes, paddedContent, List.append_assoc]]
    exact drop_append_exact _ _ _ (by simp)
  have hdB : (encodedBytes l footer).drop 8 =
      le32 (sir0ListPadded l) ++
        ([0, 0, 0, 0] ++
          (le32 l.entries.length ++
            (le32 24 ++
              (tableBytes l ++
                (recordsBytes l ++
                  (flagsAllBytes l ++
                    (utf16PoolBytes (collectUtf16Strings l.entries) ++
                      (utf8PoolBytes (collectUtf8Strings l.entries) ++
                        (List.replicate ((4 - contentEnd l % 4) % 4) 0 ++
                          footer (sir0Pointers l)))))))))) := by
    rw [show (8 : Nat) = 4 + 4 from rfl, drop_add, hdA, drop_le32]
  have hdC : (encodedBytes l footer).drop 16 =
      le32 l.entries.length ++
        (le32 24 ++
          (tableBytes l ++
            (recordsBytes l ++
              (flagsAllBytes l ++
                (utf16PoolBytes (collectUtf16Strings l.entries) ++
                  (utf8PoolBytes (collectUtf8Strings l.entries) ++
                    (List.replicate ((4 - contentEnd l % 4) % 4) 0 ++
                      footer (sir0Pointers l)))))))) := by
    rw [show (16 : Nat) = 8 + 4 + 4 from rfl, drop_add, drop_add, hdB, drop_le32,
      drop_append_exact ([0, 0, 0, 0] : List Nat) _ 4 rfl]
  have hdD : (encodedBytes l footer).drop (16 + 4) =
      le32 24 ++
        (tableBytes l ++
          (recordsBytes l ++
            (flagsAllBytes l ++
              (utf16PoolBytes (collectUtf16Strings l.entries) ++
                (utf8PoolBytes (collectUtf8Strings l.entries) ++
                  (List.replicate ((4 - contentEnd l % 4) % 4) 0 ++
                    footer (sir0Pointers l))))))) := by
    rw [drop_add, hdC, drop_le32]
  -- the individual header reads
  have hr4 : read_u32_at (encodedBytes l footer) 4 = .ok 16 :=
    (read_u32_of_drop _ _ _ _ hdA).trans (by norm_num)
  have hr8 : read_u32_at (encodedBytes l footer) 8 =
      .ok (sir0ListPadded l % 4294967296) :=
    read_u32_of_drop _ _ _ _ hdB
  have hr16 : read_u32_at (encodedBytes l footer) 16 = .ok l.entries.length :=
    (read_u32_of_drop _ _ _ _ hdC).trans (by rw [Nat.mod_eq_of_lt hnlt])
  have hr20 : read_u32_at (encodedBytes l footer) (16 + 4) = .ok 24 :=
    (read_u32_of_drop _ _ _ _ hdD).trans (by norm_num)
  -- the entry-pointer table
  have htbl : readU32List (encodedBytes l footer) 24 l.entries.length =
      .ok (entriesPointerList l) := by
    have h := readU32List_of_drop (encodedBytes l footer) (entriesPointerList l) 24
      (recordsBytes l ++
        (flagsAllBytes l ++
          (utf16PoolBytes (collectUtf16Strings l.entries) ++
            (utf8PoolBytes (collectUtf8Strings l.entries) ++
              (List.replicate ((4 - contentEnd l % 4) % 4) 0 ++
                footer (sir0Pointers l))))))
      (by rw [enc_drop_24, tableBytes])
    rw [show (entriesPointerList l).length = l.entries.length from by
      simp [entriesPointerList]] at h
    rw [h]
    refine congrArg Except.ok ?_
    rw [entriesPointerList, List.map_map]
    exact List.map_eq_map_iff.mpr fun a ha => by
      have halt : a < l.entries.length := List.mem_range.mp ha
      simp only [Function.comp]
      rw [Nat.mod_eq_of_lt (by omega)]
  -- every entry
  have hentries : readEntries (encodedBytes l footer) (entriesPointerList l) =
      .ok l.entries := by
    rw [entriesPointerList]
    rw [readEntries_map_ok (encodedBytes l footer) (fun i => recStart l + 20 * i)
      (fun k => l.entries.getD k default) (List.range l.entries.length)
      (fun k hk => by
        show readEntry (encodedBytes l footer) (recStart l + 20 * k) =
          Except.ok (l.entries.getD k default)
        rw [show recStart l + 20 * k = 24 + 4 * l.entries.length + 20 * k from by
          rw [recStart]]
        exact readEntry_encoded l footer hg hsz k (List.mem_range.mp hk))]
    rw [map_getD_range]
  -- assemble the decoder run
  simp only [new_from_file]
  rw [show (encodedBytes l footer).take 4 = [83, 73, 82, 48] from rfl]
  rw [show ((match ([83, 73, 82, 48] : List Nat) with
    | [a, b, c, d] => Except.ok [a, b, c, d]
    | _ => Except.error ScriptEntryListError.IOError) :
      Except ScriptEntryListError (List Nat)) = Except.ok [83, 73, 82, 48] from rfl]
  rw [ok_bind]
  rw [if_neg (by decide)]
  rw [hr4, ok_bind, hr8, ok_bind, hr16, ok_bind, hr20, ok_bind, htbl, ok_bind,
    hentries, ok_bind]

/-! ## Length of the padded content and of the pointer list -/

theorem flatten_map_fixed_length {α : Type} (f : Nat → List α) (c : Nat)
    (hf : ∀ j, (f j).length = c) :
    ∀ idxs : List Nat, ((idxs.map f).flatten).length = c * idxs.length := by
  intro idxs
  induction idxs with
  | nil => simp
  | cons a tl ih =>
    rw [List.map_cons, List.flatten_cons, List.length_append, hf, ih, List.length_cons]
    ring

theorem recordFieldPtrs_length (l : ScriptEntryList) :
    (recordFieldPtrs l).length = 5 * l.entries.length := by
  rw [recordFieldPtrs, flatten_map_fixed_length (fun j =>
    [(recStart l + 20 * j) % 4294967296, (recStart l + 20 * j + 4) % 4294967296,
      (recStart l + 20 * j + 8) % 4294967296, (recStart l + 20 * j + 12) % 4294967296,
      (recStart l + 20 * j + 16) % 4294967296]) 5 (fun j => rfl), List.length_range]

theorem sir0Pointers_length (l : ScriptEntryList) :
    (sir0Pointers l).length = 3 + 6 * l.entries.length := by
  rw [sir0Pointers]
  simp only [List.length_append, List.length_map, List.length_range,
    recordFieldPtrs_length, List.length_cons, List.length_nil]
  omega

theorem flagsAllBytes_length (l : ScriptEntryList) :
    (flagsAllBytes l).length = 16 * l.entries.length := by
  rw [flagsAllBytes, flagsAllFlatten_length]

theorem contentEnd_expand (l : ScriptEntryList) :
    contentEnd l = 24 + 4 * l.entries.length + 20 * l.entries.length +
      16 * l.entries.length +
      (utf16PoolBytes (collectUtf16Strings l.entries)).length +
      (utf8PoolBytes (collectUtf8Strings l.entries)).length := by
  have e1 : contentEnd l =
      pool8Start l + (utf8PoolBytes (collectUtf8Strings l.entries)).length := rfl
  have e2 : pool8Start l =
      pool16Start l + (utf16PoolBytes (collectUtf16Strings l.entries)).length := rfl
  have e3 : pool16Start l = flagsStart l + 16 * l.entries.length := rfl
  have e4 : flagsStart l = recStart l + 20 * l.entries.length := rfl
  have e5 : recStart l = 24 + 4 * l.entries.length := rfl
  omega

theorem paddedContent_length (l : ScriptEntryList) :
    (paddedContent l).length = sir0ListPadded l := by
  have h1 := contentEnd_expand l
  rw [paddedContent, sir0ListPadded]
  simp only [List.length_append, List.length_cons, List.length_nil, le32_length,
    List.length_replicate, tableBytes_length, recordsBytes_length, flagsAllBytes_length]
  omega

/-! ## Header field reads of the final stream -/

theorem enc_drop_hdr4 (l : ScriptEntryList) (footer : List Nat → List Nat) :
    (encodedBytes l footer).drop 4 =
      le32 16 ++
        (le32 (sir0ListPadded l) ++
          ([0, 0, 0, 0] ++
            (le32 l.entries.length ++
              (le32 24 ++
                (tableBytes l ++
                  (recordsBytes l ++
                    (flagsAllBytes l ++
                      (utf16PoolBytes (collectUtf16Strings l.entries) ++
                        (utf8PoolBytes (collectUtf8Strings l.entries) ++
                          (List.replicate ((4 - contentEnd l % 4) % 4) 0 ++
                            footer (sir0Pointers l))))))))))) := by
  rw [show encodedBytes l footer = [83, 73, 82, 48] ++
    (le32 16 ++
      (le32 (sir0ListPadded l) ++
        ([0, 0, 0, 0] ++
          (le32 l.entries.length ++
            (le32 24 ++
              (tableBytes l ++
                (recordsBytes l ++
                  (flagsAllBytes l ++
                    (utf16PoolBytes (collectUtf16Strings l.entries) ++
                      (utf8PoolBytes (collectUtf8Strings l.entries) ++
                        (List.replicate ((4 - contentEnd l % 4) % 4) 0 ++
                          footer (sir0Pointers l)))))))))))) from by
      simp [encodedBytes, paddedContent, List.append_assoc]]
  exact drop_append_exact _ _ _ (by simp)

theorem enc_drop_hdr8 (l : ScriptEntryList) (footer : List Nat → List Nat) :
    (encodedBytes l footer).drop 8 =
      le32 (sir0ListPadded l) ++
        ([0, 0, 0, 0] ++
          (le32 l.entries.length ++
            (le32 24 ++
              (tableBytes l ++
                (recordsBytes l ++
                  (flagsAllBytes l ++
                    (utf16PoolBytes (collectUtf16Strings l.entries) ++
                      (utf8PoolBytes (collectUtf8Strings l.entries) ++
                        (List.replicate ((4 - contentEnd l % 4) % 4) 0 ++
                          footer (sir0Pointers l)))))))))) := by
  rw [show (8 : Nat) = 4 + 4 from rfl, drop_add, enc_drop_hdr4, drop_le32]

theorem enc_read_off4 (l : ScriptEntryList) (footer : List Nat → List Nat) :
    read_u32_at (encodedBytes l footer) 4 = .ok 16 :=
  (read_u32_of_drop _ _ _ _ (enc_drop_hdr4 l footer)).trans (by norm_num)

theorem enc_read_off8 (l : ScriptEntryList) (footer : List Nat → List Nat) :
    read_u32_at (encodedBytes l footer) 8 = .ok (sir0ListPadded l % 4294967296) :=
  read_u32_of_drop _ _ _ _ (enc_drop_hdr8 l footer)

/-! ## Record field reads of the final stream -/

theorem enc_record_reads (l : ScriptEntryList) (footer : List Nat → List Nat)
    (k : Nat) (hk : k < l.entries.length) :
    read_u32_at (encodedBytes l footer) (recStart l + 20 * k) =
      .ok (mapGet (utf8Map l) (l.entries.getD k default).entity_name % 4294967296) ∧
    read_u32_at (encodedBytes l footer) (recStart l + 20 * k + 4) =
      .ok (mapGet (utf8Map l) (l.entries.getD k default).map_name % 4294967296) ∧
    read_u32_at (encodedBytes l footer) (recStart l + 20 * k + 8) =
      .ok (mapGet (utf16Map l) (l.entries.getD k default).lua_path % 4294967296) ∧
    read_u32_at (encodedBytes l footer) (recStart l + 20 * k + 12) =
      .ok (mapGet (utf16Map l) (l.entries.getD k default).plb_path % 4294967296) ∧
    read_u32_at (encodedBytes l footer) (recStart l + 20 * k + 16) =
      .ok ((flagsStart l + 16 * k) % 4294967296) := by
  simp only [recStart]
  have hge : l.entries[k] = l.entries.getD k default :=
    (List.getD_eq_getElem _ _ hk).symm
  have hd0 : (encodedBytes l footer).drop (24 + 4 * l.entries.length + 20 * k) =
      le32 (mapGet (utf8Map l) (l.entries.getD k default).entity_name) ++
        (le32 (mapGet (utf8Map l) (l.entries.getD k default).map_name) ++
          (le32 (mapGet (utf16Map l) (l.entries.getD k default).lua_path) ++
            (le32 (mapGet (utf16Map l) (l.entries.getD k default).plb_path) ++
              (le32 (flagsStart l + 16 * k) ++
                (recordsBytesAux (utf8Map l) (utf16Map l) (flagsPointerList l)
                    (l.entries.drop (k + 1)) (k + 1) ++
                  (flagsAllBytes l ++
                    (utf16PoolBytes (collectUtf16Strings l.entries) ++
                      (utf8PoolBytes (collectUtf8Strings l.entries) ++
                        (List.replicate ((4 - contentEnd l % 4) % 4) 0 ++
                          footer (sir0Pointers l)))))))))) := by
    rw [drop_add, enc_drop_recStart,
      List.drop_append_of_le_length (by rw [recordsBytes_length]; omega),
      recordsBytes, recordsBytesAux_drop _ _ _ k l.entries 0 (by omega),
      List.drop_eq_getElem_cons hk, hge, recordsBytesAux, Nat.zero_add,
      flagsPointerList_getD l k hk]
    simp only [entryRecordBytes, List.append_assoc]
  have hd1 : (encodedBytes l footer).drop (24 + 4 * l.entries.length + 20 * k + 4) =
      le32 (mapGet (utf8Map l) (l.entries.getD k default).map_name) ++
        (le32 (mapGet (utf16Map l) (l.entries.getD k default).lua_path) ++
          (le32 (mapGet (utf16Map l) (l.entries.getD k default).plb_path) ++
            (le32 (flagsStart l + 16 * k) ++
              (recordsBytesAux (utf8Map l) (utf16Map l) (flagsPointerList l)
                  (l.entries.drop (k + 1)) (k + 1) ++
                (flagsAllBytes l ++
                  (utf16PoolBytes (collectUtf16Strings l.entries) ++
                    (utf8PoolBytes (collectUtf8Strings l.entries) ++
                      (List.replicate ((4 - contentEnd l % 4) % 4) 0 ++
                        footer (sir0Pointers l))))))))) := by
    rw [drop_add, hd0, drop_le32]
  have hd2 : (encodedBytes l footer).drop (24 + 4 * l.entries.length + 20 * k + 8) =
      le32 (mapGet (utf16Map l) (l.entries.getD k default).lua_path) ++
        (le32 (mapGet (utf16Map l) (l.entries.getD k default).plb_path) ++
          (le32 (flagsStart l + 16 * k) ++
            (recordsBytesAux (utf8Map l) (utf16Map l) (flagsPointerList l)
                (l.entries.drop (k + 1)) (k + 1) ++
              (flagsAllBytes l ++
                (utf16PoolBytes (collectUtf16Strings l.entries) ++
                  (utf8PoolBytes (collectUtf8Strings l.entries) ++
                    (List.replicate ((4 - contentEnd l % 4) % 4) 0 ++
                      footer (sir0Pointers l)))))))) := by
    rw [show 24 + 4 * l.entries.length + 20 * k + 8 =
      24 + 4 * l.entries.length + 20 * k + 4 + 4 from by omega, drop_add, hd1, drop_le32]
  have hd3 : (encodedBytes l footer).drop (24 + 4 * l.entries.length + 20 * k + 12) =
      le32 (mapGet (utf16Map l) (l.entries.getD k default).plb_path) ++
        (le32 (flagsStart l + 16 * k) ++
          (recordsBytesAux (utf8Map l) (utf16Map l) (flagsPointerList l)
              (l.entries.drop (k + 1)) (k + 1) ++
            (flagsAllBytes l ++
              (utf16PoolBytes (collectUtf16Strings l.entries) ++
                (utf8PoolBytes (collectUtf8Strings l.entries) ++
                  (List.replicate ((4 - contentEnd l % 4) % 4) 0 ++
                    footer (sir0Pointers l))))))) := by
    rw [show 24 + 4 * l.entries.length + 20 * k + 12 =
      24 + 4 * l.entries.length + 20 * k + 8 + 4 from by omega, drop_add, hd2, drop_le32]
  have hd4 : (encodedBytes l footer).drop (24 + 4 * l.entries.length + 20 * k + 16) =
      le32 (flagsStart l + 16 * k) ++
        (recordsBytesAux (utf8Map l) (utf16Map l) (flagsPointerList l)
            (l.entries.drop (k + 1)) (k + 1) ++
          (flagsAllBytes l ++
            (utf16PoolBytes (collectUtf16Strings l.entries) ++
              (utf8PoolBytes (collectUtf8Strings l.entries) ++
                (List.replicate ((4 - contentEnd l % 4) % 4) 0 ++
                  footer (sir0Pointers l)))))) := by
    rw [show 24 + 4 * l.entries.length + 20 * k + 16 =
      24 + 4 * l.entries.length + 20 * k + 12 + 4 from by omega, drop_add, hd3, drop_le32]
  exact ⟨read_u32_of_drop _ _ _ _ hd0, read_u32_of_drop _ _ _ _ hd1,
    read_u32_of_drop _ _ _ _ hd2, read_u32_of_drop _ _ _ _ hd3,
    read_u32_of_drop _ _ _ _ hd4⟩

theorem enc_flags_read (l : ScriptEntryList) (footer : List Nat → List Nat)
    (k : Nat) (hk : k < l.entries.length)
    (hflen : (l.entries.getD k default).flags.length = 4)
    (hfbnd : ∀ f ∈ (l.entries.getD k default).flags, f < 4294967296) :
    readU32List (encodedBytes l footer) (flagsStart l + 16 * k) 4 =
      .ok (l.entries.getD k default).flags := by
  have hge : l.entries[k] = l.entries.getD k default :=
    (List.getD_eq_getElem _ _ hk).symm
  obtain ⟨f0, f1, f2, f3, hfeq⟩ := list_len4 _ hflen
  have hdF : (encodedBytes l footer).drop (flagsStart l + 16 * k) =
      flagsBytes (l.entries.getD k default).flags ++
        (((l.entries.drop (k + 1)).map (fun e => flagsBytes e.flags)).flatten ++
          (utf16PoolBytes (collectUtf16Strings l.entries) ++
            (utf8PoolBytes (collectUtf8Strings l.entries) ++
              (List.replicate ((4 - contentEnd l % 4) % 4) 0 ++
                footer (sir0Pointers l))))) := by
    rw [show flagsStart l + 16 * k =
      24 + 4 * l.entries.length + 20 * l.entries.length + 16 * k from by
        rw [flagsStart, recStart]]
    rw [drop_add, enc_drop_flagsStart,
      List.drop_append_of_le_length (by rw [flagsAllBytes, flagsAllFlatten_length]; omega),
      flagsAllBytes, flagsFlatten_drop k l.entries (by omega),
      List.drop_eq_getElem_cons hk, hge, List.map_cons, List.flatten_cons]
    simp only [List.append_assoc]
  have hfb0 : f0 < 4294967296 := hfbnd f0 (by rw [hfeq]; simp)
  have hfb1 : f1 < 4294967296 := hfbnd f1 (by rw [hfeq]; simp)
  have hfb2 : f2 < 4294967296 := hfbnd f2 (by rw [hfeq]; simp)
  have hfb3 : f3 < 4294967296 := hfbnd f3 (by rw [hfeq]; simp)
  have h4 := readU32List_of_drop (encodedBytes l footer) [f0, f1, f2, f3]
    (flagsStart l + 16 * k)
    (((l.entries.drop (k + 1)).map (fun e => flagsBytes e.flags)).flatten ++
      (utf16PoolBytes (collectUtf16Strings l.entries) ++
        (utf8PoolBytes (collectUtf8Strings l.entries) ++
          (List.replicate ((4 - contentEnd l % 4) % 4) 0 ++
            footer (sir0Pointers l)))))
    (by rw [hdF, hfeq]
        simp [flagsBytes, List.append_assoc])
  rw [show ([f0, f1, f2, f3] : List Nat).length = 4 from rfl] at h4
  rw [h4, hfeq]
  simp [Nat.mod_eq_of_lt hfb0, Nat.mod_eq_of_lt hfb1, Nat.mod_eq_of_lt hfb2,
    Nat.mod_eq_of_lt hfb3]

/-! ## Counting in a duplicate-free pool listing -/

theorem count_one_of_nodup (ws : List (List Char)) (x : List Char)
    (hnd : ws.Nodup) (hm : x ∈ ws) : ws.count x = 1 := by
  induction ws with
  | nil => cases hm
  | cons w tl ih =>
    rw [List.nodup_cons] at hnd
    rw [List.count_cons]
    rcases List.mem_cons.mp hm with h | h
    · subst h
      rw [List.count_eq_zero.mpr hnd.1]
      simp
    · have hne : x ≠ w := fun he => hnd.1 (he ▸ h)
      rw [ih hnd.2 h]
      simp [Ne.symm hne]

/-! ## The narrow-string read loop on a terminated region -/

theorem readUtf8Loop_ascii_iff : ∀ (bs rest : List Nat), (∀ b ∈ bs, b ≠ 0) →
    readUtf8Loop (bs ++ 0 :: rest) =
      if ∀ b ∈ bs, b < 128 then .ok (bs.map Char.ofNat)
      else .error .FromUtf8Error := by
  intro bs
  induction bs with
  | nil => intro rest _; simp [readUtf8Loop]
  | cons b tl ih =>
    intro rest h0
    have hb : b ≠ 0 := h0 b (by simp)
    rw [List.cons_append, readUtf8Loop, if_neg hb]
    by_cases hlt : b < 128
    · rw [if_pos hlt, ih rest (fun x hx => h0 x (by simp [hx]))]
      by_cases htl : ∀ x ∈ tl, x < 128
      · rw [if_pos htl, ok_bind, if_pos (by
          intro x hx
          rcases List.mem_cons.mp hx with h | h
          · omega
          · exact htl x h)]
        rfl
      · rw [if_neg htl, if_neg (fun hall =>
          htl fun x hx => hall x (List.mem_cons_of_mem b hx))]
        rfl
    · rw [if_neg hlt, if_neg (fun hall => hlt (hall b (by simp)))]

/-! ## The ten claims -/

/-- C1 (corrected).  The spec claims the round trip `decode(encode(L)) = L`
for every list with non-empty, NUL-free strings.  That is false: the decoder
validates narrow strings one byte at a time, so any non-ASCII scalar (and any
non-BMP scalar in a wide string) makes decoding fail — see the counterexample.
The amended round trip holds for lists whose `entity_name`/`map_name` are
NUL-free ASCII and whose `lua_path`/`plb_path` are NUL-free BMP scalars
(with the `[u32; 4]` flag shape and the content fitting in a `u32`). -/
theorem C1_round_trip (l : ScriptEntryList) (footer : List Nat → List Nat)
    (hg : ∀ e ∈ l.entries, goodEntry e ∧ e.entity_name ≠ [] ∧ e.map_name ≠ [] ∧
      e.lua_path ≠ [] ∧ e.plb_path ≠ [])
    (hsz : contentEnd l < 4294967296) :
    new_from_file ((write_to_file l footer ⟨[], 0⟩).1.data) = .ok l :=
  decode_encode_aux l footer (fun e he => (hg e he).1) hsz

/-- Witness for C1 at a concrete one-entry list. -/
theorem C1_round_trip_witness :
    (∀ e ∈ exList1.entries, goodEntry e ∧ e.entity_name ≠ [] ∧ e.map_name ≠ [] ∧
      e.lua_path ≠ [] ∧ e.plb_path ≠ []) ∧
    contentEnd exList1 < 4294967296 ∧
    new_from_file ((write_to_file exList1 (fun _ => []) ⟨[], 0⟩).1.data) =
      .ok exList1 :=
  ⟨by decide, by decide, C1_round_trip exList1 (fun _ => []) (by decide) (by decide)⟩

/-- Counterexample to C1 as stated: a nonempty, NUL-free `entity_name`
holding the scalar U+00E9 encodes fine but fails to decode. -/
theorem C1_round_trip_counterexample :
    (∀ e ∈ exListAcute.entries,
      e.entity_name ≠ [] ∧ e.map_name ≠ [] ∧ e.lua_path ≠ [] ∧ e.plb_path ≠ [] ∧
      (∀ c ∈ e.entity_name, c.toNat ≠ 0) ∧ (∀ c ∈ e.map_name, c.toNat ≠ 0) ∧
      (∀ c ∈ e.lua_path, c.toNat ≠ 0) ∧ (∀ c ∈ e.plb_path, c.toNat ≠ 0)) ∧
    new_from_file ((write_to_file exListAcute (fun _ => []) ⟨[], 0⟩).1.data) =
      .error .FromUtf8Error := by decide

/-- C2 (corrected).  The final seek-back writes the padded end-of-content
offset at offset 8 (the reserved second header field), not at offset 4: in
every final stream the u32 at offset 4 still holds the constant 16 written in
step 2, and the u32 at offset 8 holds the padded end-of-content offset. -/
theorem C2_header_backpatch (l : ScriptEntryList) (footer : List Nat → List Nat) :
    read_u32_at ((write_to_file l footer ⟨[], 0⟩).1.data) 4 = .ok 16 ∧
    read_u32_at ((write_to_file l footer ⟨[], 0⟩).1.data) 8 =
      .ok (sir0ListPadded l % 4294967296) := by
  rw [write_to_file_eq]
  exact ⟨enc_read_off4 l footer, enc_read_off8 l footer⟩

/-- Counterexample to C2 as stated: for the empty list the padded
end-of-content offset is 24, yet the content-offset field at offset 4 of the
final stream reads 16, not 24. -/
theorem C2_header_backpatch_counterexample :
    sir0ListPadded exList0 = 24 ∧
    read_u32_at ((write_to_file exList0 (fun _ => []) ⟨[], 0⟩).1.data) 4 = .ok 16 ∧
    (Except.ok 16 : Except ScriptEntryListError Nat) ≠ .ok 24 := by decide

/-- C3 (corrected).  The offset list handed to the external footer encoder
holds the content-offset field (4), the reserved second header field (8), the
entry-table-pointer field (20), one slot per entry of the pointer table and
five pointer fields per entry record: 3 + 6·n offsets, not 2 + 6·n — the
reserved field at offset 8, pushed at line 155 of the source, is the third
header offset the spec's count misses. -/
theorem C3_sir0_pointer_list (l : ScriptEntryList) (footer : List Nat → List Nat) :
    (write_to_file l footer ⟨[], 0⟩).2 = sir0Pointers l ∧
    (write_to_file l footer ⟨[], 0⟩).1.data =
      paddedContent l ++ footer (sir0Pointers l) ∧
    sir0Pointers l = [4, 8, 20] ++
      (List.range l.entries.length).map (fun i => (24 + 4 * i) % 4294967296) ++
      recordFieldPtrs l ∧
    (sir0Pointers l).length = 3 + 6 * l.entries.length := by
  refine ⟨?_, ?_, rfl, sir0Pointers_length l⟩
  · rw [write_to_file_eq]
  · rw [write_to_file_eq]
    rfl

/-- Counterexample to C3 as stated: for the empty list the encoder hands the
footer 3 offsets, not 2 + 6·0 = 2. -/
theorem C3_sir0_pointer_list_counterexample :
    ((write_to_file exList0 (fun _ => []) ⟨[], 0⟩).2).length = 3 ∧
    (3 : Nat) ≠ 2 + 6 * 0 := by decide

/-- C4 (corrected).  Reading a narrow string fails with `FromUtf8Error` iff
some byte before the zero terminator is ≥ 128 — the loop feeds
`String::from_utf8` one byte at a time, so it accepts exactly ASCII.  The
spec's claim that every valid-UTF-8 byte sequence decodes successfully is
false: a valid multi-byte sequence such as `[195, 169]` (U+00E9) fails — see
the counterexample. -/
theorem C4_narrow_text (data : List Nat) (reference : Nat) (bs rest : List Nat)
    (hterm : data.drop reference = bs ++ 0 :: rest) (h0 : ∀ b ∈ bs, b ≠ 0) :
    (read_referenced_utf8_string data reference = .error .FromUtf8Error ↔
      ∃ b ∈ bs, 128 ≤ b) ∧
    (read_referenced_utf8_string data reference = .ok (bs.map Char.ofNat) ↔
      ∀ b ∈ bs, b < 128) := by
  rw [read_referenced_utf8_string, hterm, readUtf8Loop_ascii_iff bs rest h0]
  constructor
  · constructor
    · intro he
      by_contra hno
      rw [if_pos (fun b hb => by
        have hnb : ¬ 128 ≤ b := fun hgeb => hno ⟨b, hb, hgeb⟩
        omega)] at he
      exact absurd he (by simp)
    · rintro ⟨b, hb, hgeb⟩
      rw [if_neg (fun hall => by have := hall b hb; omega)]
  · constructor
    · intro he
      by_contra hno
      rw [if_neg hno] at he
      exact absurd he (by simp)
    · intro hall
      rw [if_pos hall]

/-- Witness for C4 at the terminated region `[195, 169] ++ [0]`. -/
theorem C4_narrow_text_witness :
    (([195, 169, 0] : List Nat).drop 0 = [195, 169] ++ 0 :: []) ∧
    (∀ b ∈ ([195, 169] : List Nat), b ≠ 0) ∧
    ((read_referenced_utf8_string [195, 169, 0] 0 = .error .FromUtf8Error ↔
      ∃ b ∈ ([195, 169] : List Nat), 128 ≤ b) ∧
    (read_referenced_utf8_string [195, 169, 0] 0 =
        .ok (([195, 169] : List Nat).map Char.ofNat) ↔
      ∀ b ∈ ([195, 169] : List Nat), b < 128)) :=
  ⟨by decide, by decide,
    C4_narrow_text [195, 169, 0] 0 [195, 169] [] (by decide) (by decide)⟩

/-- Counterexample to C4 as stated: `[195, 169]` is exactly the UTF-8
encoding of the scalar U+00E9, yet reading it back fails. -/
theorem C4_narrow_text_counterexample :
    utf8Bytes [Char.ofNat 233] = [195, 169] ∧
    read_referenced_utf8_string [195, 169, 0] 0 = .error .FromUtf8Error := by decide

/-- C5 (confirmed).  Each distinct string value is stored once: the
deduplicated pool listing counts any entry's string exactly once (the pool
bytes are the concatenation of that listing, so one stored copy), and
whenever two entries share a string value for the same field, the pointer
fields of that field read back from the two entry records of the final
stream are equal. -/
theorem C5_string_dedup (l : ScriptEntryList) (footer : List Nat → List Nat)
    (i j : Nat) (hi : i < l.entries.length) (hj : j < l.entries.length) :
    (collectUtf8Strings l.entries).count (l.entries.getD i default).entity_name = 1 ∧
    (collectUtf8Strings l.entries).count (l.entries.getD i default).map_name = 1 ∧
    (collectUtf16Strings l.entries).count (l.entries.getD i default).lua_path = 1 ∧
    (collectUtf16Strings l.entries).count (l.entries.getD i default).plb_path = 1 ∧
    ((l.entries.getD i default).entity_name = (l.entries.getD j default).entity_name →
      read_u32_at (encodedBytes l footer) (recStart l + 20 * i) =
        read_u32_at (encodedBytes l footer) (recStart l + 20 * j)) ∧
    ((l.entries.getD i default).map_name = (l.entries.getD j default).map_name →
      read_u32_at (encodedBytes l footer) (recStart l + 20 * i + 4) =
        read_u32_at (encodedBytes l footer) (recStart l + 20 * j + 4)) ∧
    ((l.entries.getD i default).lua_path = (l.entries.getD j default).lua_path →
      read_u32_at (encodedBytes l footer) (recStart l + 20 * i + 8) =
        read_u32_at (encodedBytes l footer) (recStart l + 20 * j + 8)) ∧
    ((l.entries.getD i default).plb_path = (l.entries.getD j default).plb_path →
      read_u32_at (encodedBytes l footer) (recStart l + 20 * i + 12) =
        read_u32_at (encodedBytes l footer) (recStart l + 20 * j + 12)) := by
  have hmemi : l.entries.getD i default ∈ l.entries := by
    rw [List.getD_eq_getElem _ _ hi]
    exact List.getElem_mem hi
  obtain ⟨ri1, ri2, ri3, ri4, _⟩ := enc_record_reads l footer i hi
  obtain ⟨rj1, rj2, rj3, rj4, _⟩ := enc_record_reads l footer j hj
  refine ⟨?_, ?_, ?_, ?_, ?_, ?_, ?_, ?_⟩
  · exact count_one_of_nodup _ _ (collectUtf8_nodup l.entries)
      (mem_collectUtf8 l.entries [] _ hmemi).1
  · exact count_one_of_nodup _ _ (collectUtf8_nodup l.entries)
      (mem_collectUtf8 l.entries [] _ hmemi).2
  · exact count_one_of_nodup _ _ (collectUtf16_nodup l.entries)
      (mem_collectUtf16 l.entries [] _ hmemi).1
  · exact count_one_of_nodup _ _ (collectUtf16_nodup l.entries)
      (mem_collectUtf16 l.entries [] _ hmemi).2
  · intro hshare
    rw [ri1, rj1, hshare]
  · intro hshare
    rw [ri2, rj2, hshare]
  · intro hshare
    rw [ri3, rj3, hshare]
  · intro hshare
    rw [ri4, rj4, hshare]

/-- Witness for C5: two entries of `exList2` share `lua_path`. -/
theorem C5_string_dedup_witness :
    (0 : Nat) < exList2.entries.length ∧ (1 : Nat) < exList2.entries.length ∧
    (exList2.entries.getD 0 default).lua_path =
      (exList2.entries.getD 1 default).lua_path ∧
    (collectUtf16Strings exList2.entries).count
      (exList2.entries.getD 0 default).lua_path = 1 ∧
    read_u32_at (encodedBytes exList2 (fun _ => [])) (recStart exList2 + 20 * 0 + 8) =
      read_u32_at (encodedBytes exList2 (fun _ => []))
        (recStart exList2 + 20 * 1 + 8) := by
  have h := C5_string_dedup exList2 (fun _ => []) 0 1 (by decide) (by decide)
  exact ⟨by decide, by decide, by decide, h.2.2.1, h.2.2.2.2.2.2.1 (by decide)⟩

set_option linter.unusedVariables false in
/-- C6 (confirmed).  Flag blocks are never shared: each entry's record points
at its own block at `flagsStart + 16·k`, those pointers differ for any two
distinct entries even when the flag values are identical, and each of the two
blocks reads back as its own entry's four flag words.  String content is
unrestricted; the only side conditions are the `[u32; 4]` shape and bounds of
the two flag arrays and the content end fitting in a `u32`. -/
theorem C6_no_flag_sharing (l : ScriptEntryList) (footer : List Nat → List Nat)
    (i j : Nat) (hi : i < l.entries.length) (hj : j < l.entries.length)
    (hne : i ≠ j) (hsz : contentEnd l < 4294967296)
    (hfi : (l.entries.getD i default).flags.length = 4)
    (hfbi : ∀ f ∈ (l.entries.getD i default).flags, f < 4294967296)
    (hfj : (l.entries.getD j default).flags.length = 4)
    (hfbj : ∀ f ∈ (l.entries.getD j default).flags, f < 4294967296)
    (hfl : (l.entries.getD i default).flags = (l.entries.getD j default).flags) :
    read_u32_at (encodedBytes l footer) (recStart l + 20 * i + 16) =
      .ok (flagsStart l + 16 * i) ∧
    read_u32_at (encodedBytes l footer) (recStart l + 20 * j + 16) =
      .ok (flagsStart l + 16 * j) ∧
    flagsStart l + 16 * i ≠ flagsStart l + 16 * j ∧
    readU32List (encodedBytes l footer) (flagsStart l + 16 * i) 4 =
      .ok (l.entries.getD i default).flags ∧
    readU32List (encodedBytes l footer) (flagsStart l + 16 * j) 4 =
      .ok (l.entries.getD j default).flags := by
  have hble : flagsStart l + 16 * l.entries.length ≤ contentEnd l := by
    have h1 := contentEnd_expand l
    have h2 : flagsStart l = 24 + 4 * l.entries.length + 20 * l.entries.length := by
      rw [flagsStart, recStart]
    omega
  obtain ⟨_, _, _, _, ri5⟩ := enc_record_reads l footer i hi
  obtain ⟨_, _, _, _, rj5⟩ := enc_record_reads l footer j hj
  refine ⟨?_, ?_, by omega, enc_flags_read l footer i hi hfi hfbi,
    enc_flags_read l footer j hj hfj hfbj⟩
  · rw [ri5, Nat.mod_eq_of_lt (by omega)]
  · rw [rj5, Nat.mod_eq_of_lt (by omega)]

/-- Witness for C6: the two entries of `exList2` carry identical flags. -/
theorem C6_no_flag_sharing_witness :
    (exList2.entries.getD 0 default).flags = (exList2.entries.getD 1 default).flags ∧
    flagsStart exList2 + 16 * 0 ≠ flagsStart exList2 + 16 * 1 ∧
    readU32List (encodedBytes exList2 (fun _ => [])) (flagsStart exList2 + 16 * 0) 4 =
      .ok (exList2.entries.getD 0 default).flags := by
  have h := C6_no_flag_sharing exList2 (fun _ => []) 0 1 (by decide) (by decide)
    (by decide) (by decide) (by decide) (by decide) (by decide) (by decide) (by decide)
  exact ⟨by decide, h.2.2.1, h.2.2.2.1⟩

/-- C7 (confirmed).  A stream whose first four bytes are not `SIR0` is
rejected with `InvalidHeader` carrying exactly those four bytes; the bytes
past the first four are arbitrary in the statement, so the result does not
depend on them — no further read happens. -/
theorem C7_header_rejection (a b c d : Nat) (rest : List Nat)
    (h : [a, b, c, d] ≠ [83, 73, 82, 48]) :
    new_from_file (a :: b :: c :: d :: rest) =
      .error (.InvalidHeader [a, b, c, d]) := by
  simp only [new_from_file]
  rw [show (a :: b :: c :: d :: rest).take 4 = [a, b, c, d] from rfl]
  rw [show ((match ([a, b, c, d] : List Nat) with
    | [a, b, c, d] => Except.ok [a, b, c, d]
    | _ => Except.error ScriptEntryListError.IOError) :
      Except ScriptEntryListError (List Nat)) = Except.ok [a, b, c, d] from rfl]
  rw [ok_bind, if_pos h]
  rfl

/-- Witness for C7 at a concrete all-zero header. -/
theorem C7_header_rejection_witness :
    (([0, 0, 0, 0] : List Nat) ≠ [83, 73, 82, 48]) ∧
    new_from_file [0, 0, 0, 0] = .error (.InvalidHeader [0, 0, 0, 0]) :=
  ⟨by decide, C7_header_rejection 0 0 0 0 [] (by decide)⟩

/-- C8 (confirmed).  The relocation footer starts right after the padded
content, at stream offset `sir0ListPadded`, which is always a multiple
of 4. -/
theorem C8_footer_alignment (l : ScriptEntryList) (footer : List Nat → List Nat) :
    (write_to_file l footer ⟨[], 0⟩).1.data =
      paddedContent l ++ footer (sir0Pointers l) ∧
    (paddedContent l).length = sir0ListPadded l ∧
    sir0ListPadded l % 4 = 0 := by
  refine ⟨?_, paddedContent_length l, ?_⟩
  · rw [write_to_file_eq]
    rfl
  · rw [sir0ListPadded]
    omega

/-- C9 (confirmed).  The restricted round trip: NUL-free ASCII narrow strings
and NUL-free BMP wide strings (empty allowed) decode back exactly, assuming
the `[u32; 4]` flag shape and the content end fitting in a `u32`. -/
theorem C9_restricted_round_trip (l : ScriptEntryList) (footer : List Nat → List Nat)
    (hg : ∀ e ∈ l.entries, goodEntry e) (hsz : contentEnd l < 4294967296) :
    new_from_file ((write_to_file l footer ⟨[], 0⟩).1.data) = .ok l :=
  decode_encode_aux l footer hg hsz

/-- Witness for C9 at a one-entry list whose strings are all empty. -/
theorem C9_restricted_round_trip_witness :
    (∀ e ∈ exListEmpty.entries, goodEntry e) ∧
    contentEnd exListEmpty < 4294967296 ∧
    new_from_file ((write_to_file exListEmpty (fun _ => []) ⟨[], 0⟩).1.data) =
      .ok exListEmpty :=
  ⟨by decide, by decide,
    C9_restricted_round_trip exListEmpty (fun _ => []) (by decide) (by decide)⟩

/-- C10 (confirmed).  The u32 at offset 8 of the final stream holds the
4-byte-aligned padded end-of-content offset at which the footer begins; it is
at least 24, hence never zero. -/
theorem C10_reserved_field_backpatch (l : ScriptEntryList)
    (footer : List Nat → List Nat) (hsz : sir0ListPadded l < 4294967296) :
    read_u32_at ((write_to_file l footer ⟨[], 0⟩).1.data) 8 =
      .ok (sir0ListPadded l) ∧
    sir0ListPadded l % 4 = 0 ∧ sir0ListPadded l ≠ 0 := by
  refine ⟨?_, by rw [sir0ListPadded]; omega, ?_⟩
  · rw [write_to_file_eq]
    have h := enc_read_off8 l footer
    rw [Nat.mod_eq_of_lt hsz] at h
    exact h
  · have h1 := contentEnd_expand l
    rw [sir0ListPadded]
    omega

/-- Witness for C10 at the empty list, whose padded content end is 24. -/
theorem C10_reserved_field_backpatch_witness :
    sir0ListPadded exList0 < 4294967296 ∧
    read_u32_at ((write_to_file exList0 (fun _ => []) ⟨[], 0⟩).1.data) 8 =
      .ok (sir0ListPadded exList0) ∧
    sir0ListPadded exList0 % 4 = 0 ∧ sir0ListPadded exList0 ≠ 0 := by
  have h := C10_reserved_field_backpatch exList0 (fun _ => []) (by decide)
  exact ⟨by decide, h.1, h.2.1, h.2.2⟩

end PmdScriptEntryList
